import Mathlib

/-!
# Verification of the implgen source-mode parser

Shallow embedding of `src/parse.go` and `src/identifier_allocator.go` and
proofs about the embedded functions.  Go maps are embedded as association
lists; the one place where Go map *iteration order* is observable
(`iterStruct`, which ranges over `structMap` when emitting) is
parameterised by an explicit ordering function, since Go randomises map
iteration order.  Filesystem and build-environment reads (`go list`,
`build.Import` + `parser.ParseDir`) are embedded as oracle functions,
which is faithful because the Go code performs no writes and every read
is deterministic within a run.  Unbounded recursions (interface embedding
can recurse through `parseInterface` without a cycle guard) are embedded
with an explicit fuel argument; running out of fuel is a distinguished
outcome that corresponds to divergence of the Go code.
-/

namespace Implgen

/-- Outcome of a Go computation.  The Go code has four distinct failure
channels which we keep apart: errors built by `fileParser.errorf`
(carrying a source position), errors built by plain `fmt.Errorf`,
`log.Fatal` (which aborts the whole process and never returns an error
value to the caller), and runtime panics from unchecked type assertions.
`nonterm` marks fuel exhaustion of the embedding, i.e. divergence. -/
inductive GoErr where
  | goError (pos : Nat) (msg : String)
  | plainError (msg : String)
  | fatal (msg : String)
  | goPanic
  | nonterm
deriving DecidableEq

/-- A Go `map[string]α`, embedded as an association list.  Lookups are by
key; the list order is the insertion order and is never observed except
through the explicit ordering parameter of `iterStruct`. -/
abbrev AList (α : Type) := List (String × α)

def alFind? {α} (l : AList α) (k : String) : Option α :=
  (l.find? (fun e => e.1 == k)).map (fun e => e.2)

def alInsert {α} (l : AList α) (k : String) (v : α) : AList α :=
  match l with
  | [] => [(k, v)]
  | e :: es => if e.1 == k then (k, v) :: es else e :: alInsert es k v

def alValues {α} (l : AList α) : List α := l.map (fun e => e.2)

def alContains {α} (l : AList α) (k : String) : Bool := (alFind? l k).isSome

/-! ## The output model

The `model` package of the repository is not under `src/`; the
definitions below are modelled from the spec (section 3, DATA MODEL). -/

/-- Modelled from the spec: channel direction, one of send, receive or
both; the Go zero value of `model.ChanDir` is the bidirectional case. -/
inductive MChanDir where
  | both
  | send
  | recv
deriving DecidableEq

mutual
/-- Modelled from the spec: the closed Type variant set of the output
model (`model.Type`): NamedType, PredeclaredType, PointerType, ArrayType
(length -1 = slice), MapType, ChanType, FuncType, GenericType. -/
inductive MType where
  | named (pkg : String) (name : String)
  | predeclared (name : String)
  | pointer (t : MType)
  | array (len : Int) (t : MType)
  | mapType (key : MType) (value : MType)
  | chan (dir : MChanDir) (t : MType)
  | funcT (inputs : List Parameter) (variadic : Option Parameter) (outputs : List Parameter)
  | generic (base : MType) (args : List MType)
/-- Modelled from the spec: `model.Parameter` is an optional name
(anonymous if absent) together with a Type. -/
inductive Parameter where
  | mk (name : Option String) (type : MType)
end

def Parameter.name : Parameter → Option String
  | .mk n _ => n

def Parameter.type : Parameter → MType
  | .mk _ t => t

/-- Modelled from the spec: `model.Method` - name, doc, comment, ordered
inputs, optional trailing variadic parameter, ordered outputs.  Go zero
values (nil slice, empty string) appear as `[]`, `none` and `""`. -/
structure Method where
  name : String
  doc : List String
  comment : String
  inputs : List Parameter
  variadic : Option Parameter
  outputs : List Parameter

/-- Modelled from the spec: `model.Interface` - name, doc lines, trailing
comment, ordered methods. -/
structure Interface where
  name : String
  doc : List String
  comment : String
  methods : List Method

/-- Modelled from the spec: `model.Struct` - name, doc, comment and a
mapping from method name to Method (a Go map). -/
structure Struct where
  name : String
  doc : List String
  comment : String
  methods : AList Method

/-- Modelled from the spec: `model.Package` - name, import path, ordered
interfaces, ordered structs, wildcard (dot) import paths. -/
structure Package where
  name : String
  pkgPath : String
  interfaces : List Interface
  structNames : List Struct
  dotImports : List String

/-! ## The go/ast fragment consumed by parse.go -/

/-- `ast.ChanDir`: the syntactic arrow of a channel type.  `sendRecv` is
the bidirectional case (`ast.SEND|ast.RECV`). -/
inductive AstChanDir where
  | sendRecv
  | send
  | recv
deriving DecidableEq

mutual
/-- The go/ast expression nodes that `parseType` inspects.  Every node
carries its `Pos()` as a `Nat`.  `otherExpr` stands for any ast node of a
dynamic type not matched by the code; its argument is the Go type name
that `%T` would print. -/
inductive Expr where
  | ident (pos : Nat) (name : String)
  | basicLit (pos : Nat) (value : String)
  | selectorExpr (pos : Nat) (x : Expr) (sel : String)
  | starExpr (pos : Nat) (x : Expr)
  | arrayType (pos : Nat) (len : Option Expr) (elt : Expr)
  | chanType (pos : Nat) (dir : AstChanDir) (value : Expr)
  | ellipsis (pos : Nat) (elt : Expr)
  | funcType (pos : Nat) (params : Option (List Field)) (results : Option (List Field))
  | interfaceType (pos : Nat) (methods : List Field)
  | mapType (pos : Nat) (key : Expr) (value : Expr)
  | structType (pos : Nat) (fields : List Field)
  | indexExpr (pos : Nat) (x : Expr) (index : Expr)
  | indexListExpr (pos : Nat) (x : Expr) (indices : List Expr)
  | parenExpr (pos : Nat) (x : Expr)
  | otherExpr (pos : Nat) (goType : String)
/-- `ast.Field`: zero or more names sharing one type, with doc and
trailing comment.  A comment group is embedded as the list of its
comment texts; the `comment` field holds the result of
`CommentGroup.Text()`. -/
inductive Field where
  | mk (pos : Nat) (names : List String) (doc : Option (List String))
       (comment : Option String) (type : Expr)
end

def Field.pos : Field → Nat
  | .mk p _ _ _ _ => p

def Field.names : Field → List String
  | .mk _ n _ _ _ => n

def Field.doc : Field → Option (List String)
  | .mk _ _ d _ _ => d

def Field.comment : Field → Option String
  | .mk _ _ _ c _ => c

def Field.type : Field → Expr
  | .mk _ _ _ _ t => t

/-- `ast.FuncDecl`, restricted to the parts parse.go reads: the receiver
field list (possibly absent), the declared name and the doc comment. -/
structure FuncDeclData where
  recv : Option (List Field)
  name : String
  doc : Option (List String)

/-- `ast.TypeSpec` inside a `type` GenDecl (other spec kinds are never
matched). -/
inductive DeclSpec where
  | typeSpec (name : String) (comment : Option String) (ty : Expr)
  | otherSpec

/-- A top-level declaration: a GenDecl (with its token kind reduced to
whether it is `token.TYPE`, and its doc comment), a FuncDecl, or any
other declaration. -/
inductive Decl where
  | genDecl (isType : Bool) (doc : Option (List String)) (specs : List DeclSpec)
  | funcDecl (fd : FuncDeclData)
  | otherDecl

/-- `ast.ImportSpec`: optional local name and the import path (the Go
code strips the surrounding quotes from `Path.Value`; we store the
unquoted path). -/
structure ImportSpec where
  name : Option String
  path : String

/-- `ast.File`, restricted to the parts parse.go reads. -/
structure GoFile where
  name : String
  decls : List Decl
  imports : List ImportSpec

/-- `namedInterface` of parse.go: the interface type spec is embedded by
its method field list (`it.Methods.List`). -/
structure NamedInterface where
  name : String
  doc : Option (List String)
  comment : Option String
  methods : List Field

/-- `namedStruct` of parse.go.  The `it *ast.StructType` field is never
read by `parseStruct`, so it is omitted.  `methods` collects the
receiver method declarations attached by `iterStruct`. -/
structure NamedStruct where
  name : String
  doc : Option (List String)
  comment : Option String
  methods : List FuncDeclData

/-! ## Small helpers -/

/-- Rendering of an error by `%v`, used when an error is wrapped into
another one.  Positions are rendered numerically (the embedding keeps
positions as bare `Nat`s instead of file/line/column triples). -/
def GoErr.render : GoErr → String
  | .goError p m => Nat.repr p ++ ": " ++ m
  | .plainError m => m
  | .fatal m => m
  | .goPanic => "runtime panic"
  | .nonterm => "divergence"

/-- `p.errorf(pos, msgHead + ": %v", err)` applied to an error value.
`log.Fatal` aborts and panics unwind, so only returned errors are
wrapped. -/
def wrapErr (pos : Nat) (msgHead : String) : GoErr → GoErr
  | .goError p m => .goError pos (msgHead ++ ": " ++ GoErr.render (.goError p m))
  | .plainError m => .goError pos (msgHead ++ ": " ++ m)
  | e => e

/-- `duplicateImport.Error()`: the message printed by `log.Fatal` when an
ambiguous import is dereferenced; `%v` of a Go string slice renders as
the space-separated list in square brackets.  (The misspelling
"ambigous" is the source text.) -/
def dupErrorMsg (name : String) (duplicates : List String) : String :=
  "\"" ++ name ++ "\" is ambigous because of duplicate imports: [" ++
    String.intercalate " " duplicates ++ "]"

/-- Decimal value of a character list, `none` if some character is not a
decimal digit. -/
def digitsVal? (cs : List Char) : Option Nat :=
  cs.foldl
    (fun acc c =>
      match acc with
      | none => none
      | some a => if c.isDigit then some (a * 10 + (c.toNat - 48)) else none)
    (some 0)

/-- The sign-stripped core of `strconv.Atoi`: a non-empty run of decimal
digits, rejected when the signed value falls outside the 64-bit int
range (Go returns `ErrRange` there, which the caller treats like any
other error). -/
def goAtoiCore (neg : Bool) (ds : List Char) : Option Int :=
  match ds with
  | [] => none
  | _ =>
    match digitsVal? ds with
    | none => none
    | some n =>
      if neg then
        if n ≤ 2 ^ 63 then some (-(n : Int)) else none
      else
        if n < 2 ^ 63 then some ((n : Int)) else none

/-- `strconv.Atoi`: optional sign, then a non-empty digit run. -/
def goAtoi (s : String) : Option Int :=
  match s.data with
  | '-' :: rest => goAtoiCore true rest
  | '+' :: rest => goAtoiCore false rest
  | cs => goAtoiCore false cs

/-- `ast.Ident.IsExported` (`token.IsExported`): whether the first
character is upper case.  ASCII approximation of `unicode.IsUpper`. -/
def isExportedName (s : String) : Bool :=
  match s.data with
  | [] => false
  | c :: _ => c.isUpper

/-- The fallback short name of an unnamed import: last path segment
(`path.Split`), truncated at the first dot (`strings.SplitN(last, ".",
2)[0]`). -/
def importPathShortName (importPath : String) : String :=
  let last := (importPath.splitOn "/").getLastD importPath
  (last.splitOn ".").headD last

/-! ## Import table (`importsOfFile`, `importedPackage`) -/

/-- `importedPackage` with its two implementations: a resolved import
(`importedPkg`) and the deferred-ambiguity marker (`duplicateImport`).
The `parser *fileParser` memoization field of `importedPkg` is elided:
it caches the result of `parsePackage`, which is deterministic within a
run (see the module docstring), so the cache is unobservable. -/
inductive ImportedPackage where
  | pkg (path : String)
  | dup (name : String) (duplicates : List String)
deriving DecidableEq

/-- The short name an import spec binds, or `none` when the import is
skipped (blank identifier).  For unnamed imports the authoritative
lookup made through `createPackageMap` / `go list` is embedded as the
`pkgNames` oracle; the heuristic is the fallback. -/
def importShortName (pkgNames : String → Option String) (is : ImportSpec) : Option String :=
  match is.name with
  | some n => if n = "_" then none else some n
  | none =>
    match pkgNames is.path with
    | some pkg => some pkg
    | none => some (importPathShortName is.path)

/-- One update of the `normalImports` map: an existing entry under the
same short name turns into (or extends) a `duplicateImport` instead of
being overwritten. -/
def recordImport (acc : AList ImportedPackage) (pkgName : String) (importPath : String) :
    AList ImportedPackage :=
  match alFind? acc pkgName with
  | some (.dup n ds) => alInsert acc pkgName (.dup n (importPath :: ds))
  | some (.pkg p) => alInsert acc pkgName (.dup pkgName [p, importPath])
  | none => alInsert acc pkgName (.pkg importPath)

def importsOfFileCore (pkgNames : String → Option String) :
    List ImportSpec → AList ImportedPackage → List String →
    AList ImportedPackage × List String
  | [], ni, di => (ni, di)
  | is :: rest, ni, di =>
    match importShortName pkgNames is with
    | none => importsOfFileCore pkgNames rest ni di
    | some pkgName =>
      if pkgName = "." then importsOfFileCore pkgNames rest ni (di ++ [is.path])
      else importsOfFileCore pkgNames rest (recordImport ni pkgName is.path) di

/-- `importsOfFile`: the local-name to import-path map of a file plus the
ordered dot-import list. -/
def importsOfFile (pkgNames : String → Option String) (file : GoFile) :
    AList ImportedPackage × List String :=
  importsOfFileCore pkgNames file.imports [] []

/-! ## Declaration scanner (`iterInterfaces`, `iterStruct`) -/

/-- `iterInterfaces`: every named interface declaration of the file, in
declaration order.  The Go channel/goroutine producer is a plain
synchronous iterator to its consumer, so it is embedded as a list. -/
def iterInterfaces (file : GoFile) : List NamedInterface :=
  file.decls.flatMap fun d =>
    match d with
    | .genDecl true doc specs =>
      specs.filterMap fun s =>
        match s with
        | .typeSpec name comment (.interfaceType _ methods) =>
          some ⟨name, doc, comment, methods⟩
        | _ => none
    | _ => []

/-- First pass of `iterStruct`: collect named struct declarations into
`structMap` (insertion-ordered association list standing in for the Go
map). -/
def structMapOfFile (file : GoFile) : AList NamedStruct :=
  file.decls.foldl
    (fun sm d =>
      match d with
      | .genDecl true doc specs =>
        specs.foldl
          (fun sm s =>
            match s with
            | .typeSpec name comment (.structType _ _) =>
              alInsert sm name ⟨name, doc, comment, []⟩
            | _ => sm)
          sm
      | _ => sm)
    []

/-- The receiver type name extraction of `iterStruct`: a `*T` receiver is
dereferenced through the unchecked assertion `v.X.(*ast.Ident)`, which
panics when the pointee is not a plain identifier (e.g. a generic
receiver `*S[T]`); other shapes leave the name empty. -/
def recvTypeName : Expr → Except GoErr String
  | .starExpr _ (.ident _ n) => .ok n
  | .starExpr _ _ => .error .goPanic
  | .ident _ n => .ok n
  | _ => .ok ""

/-- The receiver-attachment step of the second pass: when a FuncDecl has
a non-empty receiver list, extract the receiver type name (possibly
panicking) and append the declaration to the named struct, if any. -/
def attachRecv (sm : AList NamedStruct) (fd : FuncDeclData) :
    Except GoErr (AList NamedStruct) :=
  match fd.recv with
  | some (field :: _) => do
    let typ ← recvTypeName (Field.type field)
    match alFind? sm typ with
    | some ns => pure (alInsert sm typ { ns with methods := ns.methods ++ [fd] })
    | none => pure sm
  | _ => pure sm

/-- Second pass of `iterStruct`, transcribed with the emission loop in
the position it occupies in the source: *inside* the per-declaration
loop, executed once per `FuncDecl` (declarations that are not FuncDecls
`continue` past it).  `emitOrder round vs` is the order in which Go
happens to iterate `structMap` in that round; Go randomises map
iteration order, so it is an explicit parameter. -/
def iterStructLoop (emitOrder : Nat → List NamedStruct → List NamedStruct) :
    Nat → AList NamedStruct → List Decl → Except GoErr (List NamedStruct)
  | _, _, [] => pure []
  | round, sm, d :: ds =>
    match d with
    | .funcDecl fd => do
      let sm2 ← attachRecv sm fd
      let rest ← iterStructLoop emitOrder (round + 1) sm2 ds
      pure (emitOrder round (alValues sm2) ++ rest)
    | _ => iterStructLoop emitOrder round sm ds

/-- `iterStruct`: the struct sequence a consumer receives, or the panic
outcome.  A panic in the producer goroutine kills the process, so it is
the outcome of the whole iteration. -/
def iterStruct (emitOrder : Nat → List NamedStruct → List NamedStruct) (file : GoFile) :
    Except GoErr (List NamedStruct) :=
  iterStructLoop emitOrder 0 (structMapOfFile file) file.decls

/-! ## `parseStruct` -/

/-- `fileParser.parseStruct`.  The Go function always returns a nil
error, so the embedding is a pure function.  Only the method name and
doc are copied into the Method; the signature is never translated. -/
def parseStruct (name : String) (_pkg : String) (it : NamedStruct) : Struct :=
  { name := name
    doc := it.doc.getD []
    comment := it.comment.getD ""
    methods :=
      it.methods.foldl
        (fun ms fd =>
          alInsert ms fd.name
            { name := fd.name, doc := fd.doc.getD [], comment := ""
              inputs := [], variadic := none, outputs := [] })
        [] }

/-! ## Type translator (`parseType`, `parseFunc`, `parseFieldList`)

These are mutually recursive in the source (a function type nests
parameter lists which nest types).  The embedding threads a fuel
argument, decremented at each entry, with exhaustion reported as
`GoErr.nonterm`; all theorems about these functions quantify over the
fuel. -/

/-- `isVariadic`: whether the last parameter field is an `ast.Ellipsis`. -/
def isVariadic (params : List Field) : Bool :=
  match params.getLast? with
  | none => false
  | some f =>
    match Field.type f with
    | .ellipsis _ _ => true
    | _ => false

/-- A placeholder field used only to take `varParams[0].Pos()`; it is
never reached because the variadic slice always holds exactly one
field. -/
def emptyField : Field := ⟨0, [], none, none, .otherExpr 0 "unreachable"⟩

mutual

/-- `fileParser.parseType`.  The `imports` argument is `p.imports`
(`parseType` reads no other parser state).  The Go pattern
`if err != nil { return nil, err }` is embedded as monadic bind on
`Except`. -/
def parseType : Nat → AList ImportedPackage → String → Expr → Except GoErr MType
  | 0, _, _, _ => .error .nonterm
  | fuel + 1, imports, pkg, e =>
    match e with
    | .indexExpr _ x index => do
      let t ← parseType fuel imports pkg x
      let u ← parseType fuel imports pkg index
      pure (.generic t [u])
    | .indexListExpr _ x indices => do
      let t ← parseType fuel imports pkg x
      let ts ← parseTypeList fuel imports pkg indices
      pure (.generic t ts)
    | .arrayType _ len elt => do
      let ln : Int ←
        match len with
        | none => pure (-1 : Int)
        | some (.basicLit lpos s) =>
          match goAtoi s with
          | none => .error (.goError lpos ("bad array size: " ++ s))
          | some x => pure x
        | some _ => .error .goPanic
      let t ← parseType fuel imports pkg elt
      pure (.array ln t)
    | .chanType _ dir value => do
      let t ← parseType fuel imports pkg value
      pure (.chan (match dir with
                   | .send => .send
                   | .recv => .recv
                   | .sendRecv => .both) t)
    | .ellipsis _ elt => parseType fuel imports pkg elt
    | .funcType fpos params results => do
      let (inp, variadic, outp) ← parseFunc fuel imports pkg fpos params results
      pure (.funcT inp variadic outp)
    | .ident _ name =>
      if isExportedName name then
        match alFind? imports pkg with
        | some (.pkg path) => pure (.named path name)
        | some (.dup n ds) => .error (.fatal (dupErrorMsg n ds))
        | none => pure (.named pkg name)
      else pure (.predeclared name)
    | .interfaceType ipos methods =>
      if methods.length > 0 then
        .error (.goError ipos "cannot handle non-empty unnamed interface types")
      else pure (.predeclared "interface\x7b\x7d")
    | .mapType _ key value => do
      let k ← parseType fuel imports pkg key
      let v ← parseType fuel imports pkg value
      pure (.mapType k v)
    | .selectorExpr spos x sel =>
      match x with
      | .ident _ pkgName =>
        match alFind? imports pkgName with
        | none => .error (.goError spos ("unknown package \"" ++ pkgName ++ "\""))
        | some (.pkg path) => pure (.named path sel)
        | some (.dup n ds) => .error (.fatal (dupErrorMsg n ds))
      | _ => .error .goPanic
    | .starExpr _ x => do
      let t ← parseType fuel imports pkg x
      pure (.pointer t)
    | .structType spos fields =>
      if fields.length > 0 then
        .error (.goError spos "cannot handle non-empty unnamed struct types")
      else pure (.predeclared "struct\x7b\x7d")
    | .parenExpr _ x => parseType fuel imports pkg x
    | .basicLit _ _ => .error (.plainError "do not know how to parse type *ast.BasicLit")
    | .otherExpr _ goType => .error (.plainError ("do not know how to parse type " ++ goType))
termination_by fuel _ _ _ => (fuel, 0)

/-- Translation of the index list of an `ast.IndexListExpr`. -/
def parseTypeList : Nat → AList ImportedPackage → String → List Expr → Except GoErr (List MType)
  | _, _, _, [] => pure []
  | fuel, imports, pkg, e :: es => do
    let t ← parseType fuel imports pkg e
    let ts ← parseTypeList fuel imports pkg es
    pure (t :: ts)
termination_by fuel _ _ es => (fuel, es.length + 1)

/-- `fileParser.parseFunc` on an `ast.FuncType` given by its position,
parameter field list and result field list. -/
def parseFunc : Nat → AList ImportedPackage → String → Nat → Option (List Field) →
    Option (List Field) → Except GoErr (List Parameter × Option Parameter × List Parameter)
  | 0, _, _, _, _, _ => .error .nonterm
  | fuel + 1, imports, pkg, fpos, params, results => do
    let (inp, variadic) ←
      match params with
      | none => pure (([] : List Parameter), (none : Option Parameter))
      | some paramList =>
        if isVariadic paramList then do
          let varParams := paramList.drop (paramList.length - 1)
          let regParams := paramList.take (paramList.length - 1)
          let vp ← (parseFieldList fuel imports pkg varParams).mapError
            (wrapErr (Field.pos (varParams.headD emptyField)) "failed parsing variadic argument")
          -- Go reads vp[0]; an empty slice would be an index panic
          -- (unreachable: one field always yields at least one parameter).
          match vp with
          | [] => .error .goPanic
          | v0 :: _ => do
            let inp ← (parseFieldList fuel imports pkg regParams).mapError
              (wrapErr fpos "failed parsing arguments")
            pure (inp, some v0)
        else do
          let inp ← (parseFieldList fuel imports pkg paramList).mapError
            (wrapErr fpos "failed parsing arguments")
          pure (inp, (none : Option Parameter))
    match results with
    | none => pure (inp, variadic, ([] : List Parameter))
    | some resultList => do
      let outp ← (parseFieldList fuel imports pkg resultList).mapError
        (wrapErr fpos "failed parsing returns")
      pure (inp, variadic, outp)
termination_by fuel _ _ _ _ _ => (fuel, 0)

/-- `fileParser.parseFieldList`.  The Go loop preallocates the parameter
slice and fills it left to right; the embedding appends in the same
order (`parseFieldLoop`). -/
def parseFieldList : Nat → AList ImportedPackage → String → List Field →
    Except GoErr (List Parameter)
  | 0, _, _, _ => .error .nonterm
  | fuel + 1, imports, pkg, fields =>
    let nf := fields.foldl (fun n f => n + max 1 (Field.names f).length) 0
    if nf = 0 then pure []
    else parseFieldLoop fuel imports pkg fields
termination_by fuel _ _ _ => (fuel, 0)

/-- The translation loop of `parseFieldList`: one parameter per name in
each field, or one anonymous parameter for a nameless field. -/
def parseFieldLoop : Nat → AList ImportedPackage → String → List Field →
    Except GoErr (List Parameter)
  | _, _, _, [] => pure []
  | fuel, imports, pkg, f :: fs => do
    let t ← parseType fuel imports pkg (Field.type f)
    let ps :=
      match Field.names f with
      | [] => [Parameter.mk none t]
      | names => names.map fun n => Parameter.mk (some n) t
    let rest ← parseFieldLoop fuel imports pkg fs
    pure (ps ++ rest)
termination_by fuel _ _ fields => (fuel, fields.length + 1)

end

/-! ## Resolver state and `parseInterface` / `parseFile` -/

/-- `fileParser`, restricted to the fields that are read.
`importedStruct` is initialised but never read nor written afterwards
and is omitted.  `fileSet` only serves position rendering, which the
embedding keeps as bare `Nat` positions. -/
structure FPState where
  imports : AList ImportedPackage
  importedInterfaces : AList (AList NamedInterface)
  auxInterfaces : AList (AList NamedInterface)
  auxStructs : AList (AList NamedStruct)
  auxFiles : List GoFile

/-- The deterministic external world of one run: `pkgNames` is the
`go list` name lookup used by `createPackageMap`; `pkgFiles` is
`build.Import` + `parser.ParseDir` + `ast.MergePackageFiles`, giving the
merged file of the package at an import path (none = not locatable). -/
structure Env where
  pkgNames : String → Option String
  pkgFiles : String → Option GoFile

/-- `fileParser.parsePackage`: locate and parse the package at `path`,
producing a fresh sub-parser whose `importedInterfaces[path]` holds the
interfaces of the merged package file. -/
def parsePackage (env : Env) (path : String) : Except GoErr FPState :=
  match env.pkgFiles path with
  | none => .error (.plainError ("cannot find package " ++ path))
  | some file =>
    .ok { imports := (importsOfFile env.pkgNames file).1
          importedInterfaces :=
            [(path, (iterInterfaces file).foldl (fun m ni => alInsert m ni.name ni) [])]
          auxInterfaces := []
          auxStructs := []
          auxFiles := [] }

/-- Double map index `p.auxInterfaces[pkg][name]` (a missing outer key
gives the zero map, hence the zero `namedInterface`, which the code
detects via `ei.it == nil`). -/
def lookupAux (st : FPState) (pkg name : String) : Option NamedInterface :=
  (alFind? st.auxInterfaces pkg).bind fun m => alFind? m name

def lookupImported (st : FPState) (pkg name : String) : Option NamedInterface :=
  (alFind? st.importedInterfaces pkg).bind fun m => alFind? m name

/-- The `%T` Go type name of an embedded expression node, for the
`parseInterface` default arm. -/
def exprGoType : Expr → String
  | .ident _ _ => "*ast.Ident"
  | .basicLit _ _ => "*ast.BasicLit"
  | .selectorExpr _ _ _ => "*ast.SelectorExpr"
  | .starExpr _ _ => "*ast.StarExpr"
  | .arrayType _ _ _ => "*ast.ArrayType"
  | .chanType _ _ _ => "*ast.ChanType"
  | .ellipsis _ _ => "*ast.Ellipsis"
  | .funcType _ _ _ => "*ast.FuncType"
  | .interfaceType _ _ => "*ast.InterfaceType"
  | .mapType _ _ _ => "*ast.MapType"
  | .structType _ _ => "*ast.StructType"
  | .indexExpr _ _ _ => "*ast.IndexExpr"
  | .indexListExpr _ _ _ => "*ast.IndexListExpr"
  | .parenExpr _ _ => "*ast.ParenExpr"
  | .otherExpr _ goType => goType

mutual

/-- `fileParser.parseInterface`.  Recursion through embedded interfaces
is unbounded in the source (no cycle guard), hence the fuel.  The
memoization of sub-parsers into `p.imports` is elided (deterministic,
see module docstring); apostrophes of the source error texts are written
out ("do not" for the source text with an apostrophe). -/
def parseInterface (fuel : Nat) (env : Env) (st : FPState) (name pkg : String)
    (it : NamedInterface) : Except GoErr Interface :=
  match fuel with
  | 0 => .error .nonterm
  | fuel + 1 => do
    let ms ← parseInterfaceFields fuel env st name pkg it.methods
    pure { name := name, doc := it.doc.getD [], comment := it.comment.getD ""
           methods := ms }
termination_by (fuel, 0)

/-- The per-entry switch of `parseInterface`: the contribution one
method-list field makes to the resolved interface.  A `FuncType` entry
with exactly one name translates to its single method; a plain
identifier resolves a same-package embedded interface (auxiliary cache
first, then imported cache) and contributes its resolved methods; a
package-qualified identifier resolves the package short name through
the import table (dereferencing a `duplicateImport` is a `log.Fatal`
abort), checks the auxiliary cache of the short name first, otherwise
locates and parses the external package, and contributes the resolved
methods; anything else is an error. -/
def entryContribution : Nat → Env → FPState → String → String → Field →
    Except GoErr (List Method)
  | fuel, env, st, intfName, pkg, .mk _fpos names fdoc fcomment ty =>
    match ty with
    | .funcType fpos params results =>
      match names with
      | [n] => do
        let (inp, vard, outp) ← parseFunc fuel st.imports pkg fpos params results
        pure [{ name := n, doc := fdoc.getD []
                comment := fcomment.getD ""
                inputs := inp, variadic := vard, outputs := outp }]
      | ns =>
        .error (.plainError ("expected one name for interface " ++ intfName ++
          ", got " ++ Nat.repr ns.length))
    | .ident ipos v =>
      match (lookupAux st pkg v).orElse (fun _ => lookupImported st pkg v) with
      | none => .error (.goError ipos ("unknown embedded interface " ++ v))
      | some ei => do
        let eintf ← parseInterface fuel env st v pkg ei
        pure eintf.methods
    | .selectorExpr spos x sel =>
      match x with
      | .ident xpos fpkg =>
        match alFind? st.imports fpkg with
        | none => .error (.goError xpos ("unknown package " ++ fpkg))
        | some epkg =>
          match lookupAux st fpkg sel with
          | some ei => do
            let eintf ← parseInterface fuel env st sel fpkg ei
            pure eintf.methods
          | none =>
            match epkg with
            | .dup n ds => .error (.fatal (dupErrorMsg n ds))
            | .pkg path =>
              match parsePackage env path with
              | .error e =>
                .error (.goError spos ("could not parse package " ++ path ++ ": " ++
                  GoErr.render e))
              | .ok newP =>
                match lookupImported newP path sel with
                | none =>
                  .error (.goError spos ("unknown embedded interface " ++ path ++
                    "." ++ sel))
                | some ei => do
                  let eintf ← parseInterface fuel env newP sel path ei
                  pure eintf.methods
      | _ => .error .goPanic
    | other => .error (.plainError ("do not know how to mock method of type " ++
        exprGoType other))
termination_by fuel _ _ _ _ _ => (fuel, 1)

/-- The method-list loop of `parseInterface`: each field appends its
contribution (one translated method, or all methods of an embedded
interface) to the accumulated method list, in declaration order. -/
def parseInterfaceFields (fuel : Nat) (env : Env) (st : FPState) (intfName pkg : String) :
    List Field → Except GoErr (List Method)
  | [] => pure []
  | field :: rest => do
    let contrib ← entryContribution fuel env st intfName pkg field
    let ms ← parseInterfaceFields fuel env st intfName pkg rest
    pure (contrib ++ ms)
termination_by fields => (fuel, fields.length + 2)

end

/-- The import-merge loop of `parseFile`: add entries whose short name is
not already bound (existing entries are never stomped). -/
def mergeNoStomp (base newImports : AList ImportedPackage) : AList ImportedPackage :=
  newImports.foldl (fun acc e => if alContains acc e.1 then acc else acc ++ [e]) base

/-- The interface loop of `parseFile`. -/
def parseFileInterfaces (fuel : Nat) (env : Env) (st : FPState) (importPath : String) :
    List NamedInterface → Except GoErr (List Interface)
  | [] => pure []
  | ni :: rest => do
    let i ← parseInterface fuel env st ni.name importPath ni
    let is ← parseFileInterfaces fuel env st importPath rest
    pure (i :: is)

/-- The import-merging prologue of `parseFile`: the file imports and
then the imports of every auxiliary file are merged into the parser
state without stomping existing entries. -/
def parseFileMergedSt (env : Env) (st : FPState) (file : GoFile) : FPState :=
  let st1 := { st with imports := mergeNoStomp st.imports (importsOfFile env.pkgNames file).1 }
  st1.auxFiles.foldl
    (fun s f => { s with imports := mergeNoStomp s.imports (importsOfFile env.pkgNames f).1 })
    st1

/-- `fileParser.parseFile`: merge the file imports (and auxiliary file
imports) into the parser state without stomping, resolve every interface
in scan order, then translate every struct the scanner yields. -/
def parseFile (fuel : Nat) (emitOrder : Nat → List NamedStruct → List NamedStruct)
    (env : Env) (st : FPState) (importPath : String) (file : GoFile) :
    Except GoErr Package := do
  let is ← parseFileInterfaces fuel env (parseFileMergedSt env st file) importPath
    (iterInterfaces file)
  let nss ← iterStruct emitOrder file
  pure { name := file.name, pkgPath := importPath, interfaces := is,
         structNames := nss.map (fun ni => parseStruct ni.name importPath ni),
         dotImports := (importsOfFile env.pkgNames file).2 }

/-- `fileParser.addAuxInterfacesFromFile`. -/
def addAuxInterfacesFromFile (emitOrder : Nat → List NamedStruct → List NamedStruct)
    (st : FPState) (pkg : String) (file : GoFile) : Except GoErr FPState := do
  let nss ← iterStruct emitOrder file
  let sMap := nss.foldl (fun m ni => alInsert m ni.name ni)
    ((alFind? st.auxStructs pkg).getD [])
  let st1 := { st with auxStructs := alInsert st.auxStructs pkg sMap }
  let iMap := (iterInterfaces file).foldl (fun m ni => alInsert m ni.name ni)
    ((alFind? st1.auxInterfaces pkg).getD [])
  pure { st1 with auxInterfaces := alInsert st1.auxInterfaces pkg iMap }

/-- The core of `sourceMode` with empty -imports and -aux_files flags: a
fresh parser, auxiliary registration of the entry file itself, then
`parseFile`. -/
def sourceModeCore (fuel : Nat) (emitOrder : Nat → List NamedStruct → List NamedStruct)
    (env : Env) (importPath : String) (file : GoFile) : Except GoErr Package := do
  let st : FPState :=
    { imports := [], importedInterfaces := [], auxInterfaces := []
      auxStructs := [], auxFiles := [] }
  let st1 ← addAuxInterfacesFromFile emitOrder st importPath file
  parseFile fuel emitOrder env st1 importPath file

/-! ## Identifier allocator (`src/identifier_allocator.go`) -/

/-- The sequence of names the allocator probes: `want`, then `want_2`,
`want_3`, ... (`strconv.Itoa` is `Nat.repr`). -/
def probeName (want : String) : Nat → String
  | 0 => want
  | j + 1 => want ++ "_" ++ Nat.repr (j + 2)

/-- The probing loop of `allocateIdentifier`.  The Go loop is unbounded;
the fuel below is shown sufficient (the probe names are pairwise
distinct, so at most `taken.length` of them can be blocked), which is
exactly the termination argument for the Go loop. -/
def allocFrom (taken : List String) (want : String) : Nat → Nat → String
  | _, 0 => ""
  | j, fuel + 1 =>
    let id := probeName want j
    if id ∈ taken then allocFrom taken want (j + 1) fuel else id

/-- `identifierAllocator.allocateIdentifier`: the returned identifier and
the updated taken set (the Go receiver map is mutated in place). -/
def allocateIdentifier (taken : List String) (want : String) : String × List String :=
  let id := allocFrom taken want 0 (taken.length + 1)
  (id, id :: taken)

/-- `newIdentifierAllocator`: the taken-name set seeded from a list. -/
def newIdentifierAllocator (taken : List String) : List String := taken

/-! ## Specification-side definitions used by the theorems -/

/-- Whether an outcome is an error *returned* to the caller (a normal
structured error of the run), as opposed to success, a fatal process
abort, a panic or divergence. -/
def isReturnedError {α} : Except GoErr α → Bool
  | .error (.goError _ _) => true
  | .error (.plainError _) => true
  | _ => false

mutual

/-- `true` when translating the expression can never look up the import
table at key `name`: no package-qualified identifier with head `name`
occurs in it (the only other lookup key `parseType` uses is the current
package context, handled separately). -/
def exprAvoids (name : String) : Expr → Bool
  | .ident _ _ => true
  | .basicLit _ _ => true
  | .selectorExpr _ (.ident _ h) _ => h ≠ name
  | .selectorExpr _ _ _ => true
  | .starExpr _ x => exprAvoids name x
  | .arrayType _ _ elt => exprAvoids name elt
  | .chanType _ _ v => exprAvoids name v
  | .ellipsis _ elt => exprAvoids name elt
  | .funcType _ params results =>
    (match params with
     | none => true
     | some fs => fieldListAvoids name fs) &&
    (match results with
     | none => true
     | some fs => fieldListAvoids name fs)
  | .interfaceType _ _ => true
  | .mapType _ k v => exprAvoids name k && exprAvoids name v
  | .structType _ _ => true
  | .indexExpr _ x i => exprAvoids name x && exprAvoids name i
  | .indexListExpr _ x is => exprAvoids name x && exprListAvoids name is
  | .parenExpr _ x => exprAvoids name x
  | .otherExpr _ _ => true

def exprListAvoids (name : String) : List Expr → Bool
  | [] => true
  | e :: es => exprAvoids name e && exprListAvoids name es

def fieldListAvoids (name : String) : List Field → Bool
  | [] => true
  | .mk _ _ _ _ t :: fs => exprAvoids name t && fieldListAvoids name fs

end

/-- A method-list entry that is a plain method signature whose types
never dereference the import short name `name`: such an entry never
consults the import table at `name`. -/
def fieldIsCleanSig (name : String) (f : Field) : Bool :=
  match Field.type f with
  | .funcType _ params results =>
    fieldListAvoids name (params.getD []) && fieldListAvoids name (results.getD [])
  | _ => false

/-- Modelled from the spec (4.6 Parameter-list Translator): the per-group
expansion - one Parameter per name sharing the group type, or one
anonymous Parameter for a nameless group - kept as a list of groups so
that group structure and order are visible; claim C7 states that
`parseFieldList` is the in-order flattening of these groups. -/
def fieldGroups (fuel : Nat) (imports : AList ImportedPackage) (pkg : String) :
    List Field → Except GoErr (List (List Parameter))
  | [] => pure []
  | f :: fs => do
    let t ← parseType fuel imports pkg (Field.type f)
    let gs ← fieldGroups fuel imports pkg fs
    pure ((match Field.names f with
           | [] => [Parameter.mk none t]
           | names => names.map fun n => Parameter.mk (some n) t) :: gs)

/-- The import paths of a file whose computed short name is `name`
(skipping blank and dot imports), in declaration order; spec-side
characterisation for claim C3. -/
def pathsTo (pkgNames : String → Option String) (name : String)
    (imports : List ImportSpec) : List String :=
  imports.filterMap fun is =>
    match importShortName pkgNames is with
    | some pkgName => if pkgName = name ∧ name ≠ "." then some is.path else none
    | none => none

/-- Folding successive same-name import paths into the table entry, the
way `importsOfFile` accumulates them: first path resolved, later paths
extend a `duplicateImport`. -/
def addPaths (name : String) (cur : Option ImportedPackage) (paths : List String) :
    Option ImportedPackage :=
  paths.foldl
    (fun cur p =>
      match cur with
      | none => some (.pkg p)
      | some (.pkg q) => some (.dup name [q, p])
      | some (.dup n ds) => some (.dup n (p :: ds)))
    cur

/-- The decimal digit characters of `n`, most significant first; used to
characterise `Nat.repr`. -/
def digitsRev (n : Nat) : List Char :=
  if n = 0 then ['0'] else ((Nat.digits 10 n).map Nat.digitChar).reverse

/-! ## Concrete fixtures used by counterexamples and witnesses -/

/-- An environment in which no external package exists. -/
def emptyEnv : Env := { pkgNames := fun _ => none, pkgFiles := fun _ => none }

/-- A fresh parser state. -/
def emptySt : FPState :=
  { imports := [], importedInterfaces := [], auxInterfaces := []
    auxStructs := [], auxFiles := [] }

/-- The identity emission order. -/
def ordId : Nat → List NamedStruct → List NamedStruct := fun _ l => l

/-- The reversed emission order (Go map iteration may visit the two
structs in either order). -/
def ordRev : Nat → List NamedStruct → List NamedStruct := fun _ l => l.reverse

/-- C1 fixture: `type B interface { N() }`. -/
def c1B : NamedInterface :=
  { name := "B", doc := none, comment := none
    methods := [⟨20, ["N"], none, none, .funcType 21 (some []) none⟩] }

/-- C1 fixture: `type A interface { B; M() }` - the embedding precedes
the own method. -/
def c1A : NamedInterface :=
  { name := "A", doc := none, comment := none
    methods := [⟨30, [], none, none, .ident 31 "B"⟩,
                ⟨32, ["M"], none, none, .funcType 33 (some []) none⟩] }

/-- C1 fixture: parser state in which `B` is in the auxiliary cache of
package `p` (as `sourceMode` arranges for the entry file itself). -/
def c1St : FPState :=
  { imports := [], importedInterfaces := [], auxInterfaces := [("p", [("B", c1B)])]
    auxStructs := [], auxFiles := [] }

/-- C2 fixture: a file declaring `type S struct {}` and nothing else (in
particular no function declarations). -/
def c2FileNoFunc : GoFile :=
  { name := "p", decls := [.genDecl true none [.typeSpec "S" none (.structType 5 [])]]
    imports := [] }

/-- C2 fixture: `type S struct {}` followed by two methods
`func (s *S) M()` and `func (s S) N()`. -/
def c2FileTwoFuncs : GoFile :=
  { name := "p"
    decls := [.genDecl true none [.typeSpec "S" none (.structType 5 [])],
              .funcDecl { recv := some [⟨7, ["s"], none, none, .starExpr 8 (.ident 9 "S")⟩]
                          name := "M", doc := none },
              .funcDecl { recv := some [⟨10, ["s"], none, none, .ident 11 "S"⟩]
                          name := "N", doc := none }]
    imports := [] }

/-- C3 fixture: a file importing `a/x` and `b/x`, whose short names
collide on `x`. -/
def c3FileDup : GoFile :=
  { name := "p", decls := [], imports := [⟨none, "a/x"⟩, ⟨none, "b/x"⟩] }

/-- C3 fixture: parser state whose import table carries the recorded
duplicate for `x`. -/
def c3St : FPState :=
  { imports := [("x", .dup "x" ["a/x", "b/x"])], importedInterfaces := []
    auxInterfaces := [], auxStructs := [], auxFiles := [] }

/-- C3 fixture: `type I interface { x.S }` - an interface that
dereferences the ambiguous short name. -/
def c3NIDeref : NamedInterface :=
  { name := "I", doc := none, comment := none
    methods := [⟨40, [], none, none, .selectorExpr 41 (.ident 42 "x") "S"⟩] }

/-- C3 fixture: `type J interface { M(int) string }` - an interface that
never references the ambiguous short name. -/
def c3NIClean : NamedInterface :=
  { name := "J", doc := none, comment := none
    methods := [⟨50, ["M"], none, none,
      .funcType 51 (some [⟨52, [], none, none, .ident 53 "int"⟩])
        (some [⟨54, [], none, none, .ident 55 "string"⟩])⟩] }

/-- C3 fixture: the `go list` oracle that resolves both import paths of
`c3FileDup` to the package name `x`. -/
def c3PkgNames : String → Option String :=
  fun p => if p = "a/x" ∨ p = "b/x" then some "x" else none

/-- C4 fixture: two structs and one method declaration, so that the
scanner performs one emission round over the two-entry struct map. -/
def c4File : GoFile :=
  { name := "p"
    decls := [.genDecl true none [.typeSpec "S" none (.structType 5 []),
                                  .typeSpec "T" none (.structType 6 [])],
              .funcDecl { recv := some [⟨7, ["s"], none, none, .ident 8 "S"⟩]
                          name := "M", doc := none }]
    imports := [] }

/-- C9 fixture: `type S struct {}` with a generic-receiver method
`func (s *S[T]) M()`, whose receiver dereference panics. -/
def c9File : GoFile :=
  { name := "p"
    decls := [.genDecl true none [.typeSpec "S" none (.structType 5 [])],
              .funcDecl { recv := some [⟨7, ["s"], none, none,
                            .starExpr 8 (.indexExpr 9 (.ident 9 "S") (.ident 9 "T"))⟩]
                          name := "M", doc := none }]
    imports := [] }

/-- C10 fixture: a struct with one receiver method carrying a doc
comment and a full signature (which struct translation drops). -/
def c10File : GoFile :=
  { name := "p"
    decls := [.genDecl true none [.typeSpec "S" none (.structType 5 [])],
              .funcDecl { recv := some [⟨7, ["s"], none, none, .starExpr 8 (.ident 9 "S")⟩]
                          name := "M", doc := some ["// does M"] }]
    imports := [] }

/-! ## Association list lemmas -/

/-! ### Reduction lemmas for the Except monad operations -/

@[simp] theorem goPure_eq {α} (a : α) : (pure a : Except GoErr α) = .ok a := rfl

@[simp] theorem goBind_ok {α β} (a : α) (f : α → Except GoErr β) :
    ((Except.ok a : Except GoErr α) >>= f) = f a := rfl

@[simp] theorem goBind_error {α β} (e : GoErr) (f : α → Except GoErr β) :
    ((Except.error e : Except GoErr α) >>= f) = .error e := rfl

@[simp] theorem goFmap_ok {α β} (g : α → β) (a : α) :
    (g <$> (Except.ok a : Except GoErr α)) = .ok (g a) := rfl

@[simp] theorem goFmap_error {α β} (g : α → β) (e : GoErr) :
    (g <$> (Except.error e : Except GoErr α)) = .error e := rfl

@[simp] theorem exceptMap_ok {α β} (g : α → β) (a : α) :
    Except.map g (.ok a : Except GoErr α) = .ok (g a) := rfl

@[simp] theorem exceptMap_error {α β} (g : α → β) (e : GoErr) :
    Except.map g (.error e : Except GoErr α) = .error e := rfl

@[simp] theorem goMapError_ok {α} (g : GoErr → GoErr) (a : α) :
    (Except.ok a : Except GoErr α).mapError g = .ok a := rfl

@[simp] theorem goMapError_error {α} (g : GoErr → GoErr) (e : GoErr) :
    (Except.error e : Except GoErr α).mapError g = .error (g e) := rfl


theorem alFind?_cons {α} (k1 : String) (v1 : α) (es : AList α) (k2 : String) :
    alFind? ((k1, v1) :: es) k2 = if k1 = k2 then some v1 else alFind? es k2 := by
  by_cases h : k1 = k2
  · simp [alFind?, List.find?_cons_of_pos, h]
  · simp [alFind?, List.find?_cons_of_neg, h]

theorem alInsert_cons {α} (k1 : String) (v1 : α) (es : AList α) (k : String) (v : α) :
    alInsert ((k1, v1) :: es) k v =
      if k1 = k then (k, v) :: es else (k1, v1) :: alInsert es k v := by
  by_cases h : k1 = k <;> simp [alInsert, h]

theorem alFind?_alInsert_self {α} (l : AList α) (k : String) (v : α) :
    alFind? (alInsert l k v) k = some v := by
  induction l with
  | nil => simp [alInsert, alFind?_cons]
  | cons e es ih =>
    rcases e with ⟨k1, v1⟩
    rw [alInsert_cons]
    by_cases h : k1 = k
    · rw [if_pos h, alFind?_cons, if_pos rfl]
    · rw [if_neg h, alFind?_cons, if_neg h]
      exact ih

theorem alFind?_alInsert_ne {α} (l : AList α) (k k2 : String) (v : α) (h : k2 ≠ k) :
    alFind? (alInsert l k v) k2 = alFind? l k2 := by
  induction l with
  | nil =>
    show alFind? [(k, v)] k2 = alFind? [] k2
    rw [alFind?_cons, if_neg (fun hk => h hk.symm)]
  | cons e es ih =>
    rcases e with ⟨k1, v1⟩
    rw [alInsert_cons]
    by_cases h1 : k1 = k
    · subst h1
      rw [if_pos rfl, alFind?_cons, alFind?_cons, if_neg (fun hk => h hk.symm),
        if_neg (fun hk => h hk.symm)]
    · rw [if_neg h1, alFind?_cons, alFind?_cons]
      by_cases h2 : k1 = k2
      · rw [if_pos h2, if_pos h2]
      · rw [if_neg h2, if_neg h2]
        exact ih

theorem mem_alInsert {α} (l : AList α) (k : String) (v : α) (x : String × α)
    (h : x ∈ alInsert l k v) : x = (k, v) ∨ x ∈ l := by
  induction l with
  | nil => simpa [alInsert] using h
  | cons e es ih =>
    rcases e with ⟨k1, v1⟩
    rw [alInsert_cons] at h
    by_cases h1 : k1 = k
    · rw [if_pos h1] at h
      rcases List.mem_cons.mp h with h | h
      · exact Or.inl h
      · exact Or.inr (List.mem_cons_of_mem _ h)
    · rw [if_neg h1] at h
      rcases List.mem_cons.mp h with h | h
      · exact Or.inr (by simp [h])
      · rcases ih h with h | h
        · exact Or.inl h
        · exact Or.inr (List.mem_cons_of_mem _ h)

/-! ## Claim C10 -/

theorem parseStruct_method_shape (name pkg : String) (it : NamedStruct)
    (x : String × Method) (hx : x ∈ (parseStruct name pkg it).methods) :
    x.2.inputs = [] ∧ x.2.variadic = none ∧ x.2.outputs = [] ∧ x.2.comment = "" := by
  have main : ∀ (fds : List FuncDeclData) (init : AList Method),
      (∀ y ∈ init, y.2.inputs = [] ∧ y.2.variadic = none ∧ y.2.outputs = [] ∧
        y.2.comment = "") →
      ∀ y ∈ fds.foldl (fun ms fd =>
          alInsert ms fd.name
            { name := fd.name, doc := fd.doc.getD [], comment := ""
              inputs := [], variadic := none, outputs := [] }) init,
        y.2.inputs = [] ∧ y.2.variadic = none ∧ y.2.outputs = [] ∧ y.2.comment = "" := by
    intro fds
    induction fds with
    | nil => intro init hinit y hy; exact hinit y hy
    | cons fd fds ih =>
      intro init hinit y hy
      refine ih _ ?_ y hy
      intro z hz
      rcases mem_alInsert _ _ _ _ hz with h | h
      · subst h; exact ⟨rfl, rfl, rfl, rfl⟩
      · exact hinit z h
  exact main it.methods [] (by intro y hy; cases hy) x hx

/-- C10: every Method in the name-to-Method mapping of a struct in the
output Package has only Name and Doc populated: its inputs, outputs,
variadic slot and trailing comment are always absent, because
`parseStruct` records the method name and doc but never translates the
signature. -/
theorem claim_C10_struct_methods_unsigned (fuel : Nat)
    (emitOrder : Nat → List NamedStruct → List NamedStruct) (env : Env) (st : FPState)
    (importPath : String) (file : GoFile) (pkg : Package)
    (h : parseFile fuel emitOrder env st importPath file = .ok pkg)
    (s : Struct) (hs : s ∈ pkg.structNames)
    (x : String × Method) (hx : x ∈ s.methods) :
    x.2.inputs = [] ∧ x.2.variadic = none ∧ x.2.outputs = [] ∧ x.2.comment = "" := by
  simp only [parseFile] at h
  cases hI : parseFileInterfaces fuel env (parseFileMergedSt env st file) importPath
      (iterInterfaces file) with
  | error e => rw [hI] at h; simp at h
  | ok is =>
    rw [hI] at h
    cases hS : iterStruct emitOrder file with
    | error e => rw [hS] at h; simp at h
    | ok nss =>
      rw [hS] at h
      simp only [goBind_ok, goPure_eq] at h
      cases h
      simp only [List.mem_map] at hs
      rcases hs with ⟨ni, _, rfl⟩
      exact parseStruct_method_shape _ _ _ x hx

/-- C10 witness: a concrete run in which the struct method `M` of
`c10File` comes out with empty signature and comment. -/
theorem claim_C10_struct_methods_unsigned_witness :
    (({ name := "M", doc := ["// does M"], comment := "", inputs := []
        variadic := none, outputs := [] } : Method).inputs = [] ∧
      ({ name := "M", doc := ["// does M"], comment := "", inputs := []
         variadic := none, outputs := [] } : Method).variadic = none ∧
      ({ name := "M", doc := ["// does M"], comment := "", inputs := []
         variadic := none, outputs := [] } : Method).outputs = [] ∧
      ({ name := "M", doc := ["// does M"], comment := "", inputs := []
         variadic := none, outputs := [] } : Method).comment = "") := by
  exact claim_C10_struct_methods_unsigned 1 ordId emptyEnv emptySt "p" c10File _ rfl
    _ (List.Mem.head _) _ (List.Mem.head _)

/-! ## Claim C9 -/

/-- C9: the struct scanner is not total over parseable files: on a valid
file declaring `type S struct {}` together with a generic-receiver
method `func (s *S[T]) M()` (a receiver that is a pointer to a
non-identifier), `iterStruct` panics through the unchecked type
assertion `v.X.(*ast.Ident)` instead of returning a structured error or
skipping the declaration; likewise `parseType` panics through
`v.Len.(*ast.BasicLit)` on an array type whose length expression is not
a basic literal. -/
theorem claim_C9_scanner_panics :
    iterStruct ordId c9File = .error .goPanic ∧
    isReturnedError (iterStruct ordId c9File) = false ∧
    parseType 2 [] "p" (.arrayType 1 (some (.ident 2 "n")) (.ident 3 "int")) =
      .error .goPanic := by
  refine ⟨rfl, rfl, ?_⟩
  simp [parseType]

/-! ## Claim C2 -/

/-- C2 (code bug evaluation): the emission loop of `iterStruct` sits
inside the per-FuncDecl loop, so a file declaring a struct but no
function declarations yields nothing at all, and a file with two
function declarations yields the struct once per function declaration,
the earlier snapshot with an incomplete method set - instead of yielding
each struct exactly once with its complete receiver-method set. -/
theorem claim_C2_scanner_emission_misplaced :
    iterStruct ordId c2FileNoFunc = .ok [] ∧
    (iterStruct ordId c2FileTwoFuncs).map
        (fun l => l.map (fun ns => (ns.name, ns.methods.map (fun fd => fd.name)))) =
      .ok [("S", ["M"]), ("S", ["M", "N"])] := by
  exact ⟨rfl, rfl⟩

/-! ## Claim C5 -/

theorem goAtoiCore_false_nonneg (ds : List Char) (n : Int)
    (h : goAtoiCore false ds = some n) : 0 ≤ n := by
  unfold goAtoiCore at h
  cases ds with
  | nil => exact absurd h (by simp)
  | cons c cs =>
    cases hd : digitsVal? (c :: cs) with
    | none => rw [hd] at h; exact absurd h (by simp)
    | some m =>
      rw [hd] at h
      by_cases hm : m < 2 ^ 63
      · simp only [Bool.false_eq_true, if_false, if_pos hm] at h
        cases h
        exact Int.natCast_nonneg m
      · simp only [Bool.false_eq_true, if_false, if_neg hm] at h
        cases h

theorem goAtoi_nonneg (s : String) (hs : s.data.head? ≠ some '-') (n : Int)
    (h : goAtoi s = some n) : 0 ≤ n := by
  unfold goAtoi at h
  split at h
  · rename_i rest heq
    rw [heq] at hs
    simp at hs
  · exact goAtoiCore_false_nonneg _ _ h
  · exact goAtoiCore_false_nonneg _ _ h

/-- C5: for an array or slice type expression whose length, when
present, is a literal: an absent length yields ArrayType length -1; a
length literal that parses yields a non-negative length equal to the
parsed integer (lengths emitted by the Go parser carry no sign, hence
the no-leading-minus hypothesis); a length literal that does not parse
yields exactly the "bad array size" error carrying the position of the
length expression, and no other failure mode arises from the length. -/
theorem claim_C5_array_length (fuel : Nat) (imports : AList ImportedPackage)
    (pkg : String) (apos lpos : Nat) (elt : Expr) (s : String) (n : Int)
    (hs : s.data.head? ≠ some '-') :
    (parseType (fuel + 1) imports pkg (.arrayType apos none elt) =
      match parseType fuel imports pkg elt with
      | .ok t => .ok (.array (-1) t)
      | .error e => .error e) ∧
    (goAtoi s = none →
      parseType (fuel + 1) imports pkg (.arrayType apos (some (.basicLit lpos s)) elt) =
        .error (.goError lpos ("bad array size: " ++ s))) ∧
    (goAtoi s = some n →
      0 ≤ n ∧
      parseType (fuel + 1) imports pkg (.arrayType apos (some (.basicLit lpos s)) elt) =
        match parseType fuel imports pkg elt with
        | .ok t => .ok (.array n t)
        | .error e => .error e) := by
  refine ⟨?_, ?_, ?_⟩
  · conv_lhs => rw [parseType]
    cases parseType fuel imports pkg elt <;> rfl
  · intro h
    conv_lhs => rw [parseType]
    simp only [h, goBind_error]
  · intro h
    refine ⟨goAtoi_nonneg s hs n h, ?_⟩
    conv_lhs => rw [parseType]
    simp only [h, goPure_eq, goBind_ok]
    cases parseType fuel imports pkg elt <;> rfl

/-- C5 witness: length literal "3" parses to 3 and the element type
translates; length literal "0x10" is rejected by Atoi and produces the
positioned "bad array size" error. -/
theorem claim_C5_array_length_witness :
    ((("3" : String).data.head? ≠ some '-') ∧
      parseType 2 [] "p" (.arrayType 0 (some (.basicLit 5 "3")) (.ident 9 "int")) =
        .ok (.array 3 (.predeclared "int"))) ∧
    ((("0x10" : String).data.head? ≠ some '-') ∧
      parseType 2 [] "p" (.arrayType 0 (some (.basicLit 5 "0x10")) (.ident 9 "int")) =
        .error (.goError 5 "bad array size: 0x10")) := by
  constructor
  · refine ⟨by decide, ?_⟩
    have h := (claim_C5_array_length 1 [] "p" 0 5 (.ident 9 "int") "3" 3
      (by decide)).2.2 (by decide)
    rw [h.2]
    simp [parseType, isExportedName]
  · refine ⟨by decide, ?_⟩
    exact (claim_C5_array_length 1 [] "p" 0 5 (.ident 9 "int") "0x10" 0
      (by decide)).2.1 (by decide)

/-! ## Claim C6 -/

/-- C6: for a function parameter list: with no parameter list at all the
inputs are empty and the variadic slot absent; when the last field is a
variadic marker, the translated inputs are exactly the preceding fields
and the variadic slot holds the first (head) parameter of the last
field alone, so the variadic parameter never also appears in the input
list; with no trailing variadic marker the variadic slot is absent and
the whole list translates as regular inputs. -/
theorem claim_C6_variadic_split (fuel : Nat) (imports : AList ImportedPackage)
    (pkg : String) (fpos : Nat) (paramList : List Field)
    (results : Option (List Field)) (inp : List Parameter) (vard : Option Parameter)
    (outp : List Parameter) :
    (parseFunc (fuel + 1) imports pkg fpos none results = .ok (inp, vard, outp) →
      inp = [] ∧ vard = none) ∧
    (parseFunc (fuel + 1) imports pkg fpos (some paramList) results = .ok (inp, vard, outp) →
      (isVariadic paramList = true →
        parseFieldList fuel imports pkg (paramList.take (paramList.length - 1)) = .ok inp ∧
        (parseFieldList fuel imports pkg
            (paramList.drop (paramList.length - 1))).map (fun vp => vp.head?) = .ok vard ∧
        vard.isSome = true) ∧
      (isVariadic paramList = false →
        vard = none ∧ parseFieldList fuel imports pkg paramList = .ok inp)) := by
  constructor
  · intro h
    rw [parseFunc.eq_def] at h
    cases results with
    | none =>
      simp only [goPure_eq, goBind_ok] at h
      cases h
      exact ⟨rfl, rfl⟩
    | some rl =>
      simp only [goPure_eq, goBind_ok] at h
      cases hout : parseFieldList fuel imports pkg rl with
      | error e => rw [hout] at h; simp at h
      | ok outs =>
        rw [hout] at h
        simp only [goMapError_ok, goBind_ok, goPure_eq] at h
        cases h
        exact ⟨rfl, rfl⟩
  · intro h
    by_cases hv : isVariadic paramList = true
    · refine ⟨fun _ => ?_, fun hvf => absurd hv (by simp [hvf])⟩
      rw [parseFunc.eq_def] at h
      simp only [hv, eq_self_iff_true, if_true] at h
      cases hvp : parseFieldList fuel imports pkg (paramList.drop (paramList.length - 1)) with
      | error e => rw [hvp] at h; simp at h
      | ok vp =>
        rw [hvp] at h
        cases vp with
        | nil => simp at h
        | cons v0 vrest =>
          simp only [goMapError_ok, goBind_ok, goPure_eq] at h
          cases hreg : parseFieldList fuel imports pkg
              (paramList.take (paramList.length - 1)) with
          | error e => rw [hreg] at h; simp at h
          | ok inp2 =>
            rw [hreg] at h
            simp only [goMapError_ok, goBind_ok, goPure_eq] at h
            cases results with
            | none =>
              simp only [goPure_eq] at h
              cases h
              exact ⟨rfl, by simp, rfl⟩
            | some rl =>
              simp only [goPure_eq, goBind_ok] at h
              cases hout : parseFieldList fuel imports pkg rl with
              | error e => rw [hout] at h; simp at h
              | ok outs =>
                rw [hout] at h
                simp only [goMapError_ok, goBind_ok, goPure_eq] at h
                cases h
                exact ⟨rfl, by simp, rfl⟩
    · have hvf : isVariadic paramList = false := by simpa using hv
      refine ⟨fun hvt => absurd hvt hv, fun _ => ?_⟩
      rw [parseFunc.eq_def] at h
      simp only [hvf, Bool.false_eq_true, if_false] at h
      cases hreg : parseFieldList fuel imports pkg paramList with
      | error e => rw [hreg] at h; simp at h
      | ok inp2 =>
        rw [hreg] at h
        simp only [goMapError_ok, goBind_ok, goPure_eq] at h
        cases results with
        | none =>
          simp only [goPure_eq] at h
          cases h
          exact ⟨rfl, rfl⟩
        | some rl =>
          simp only [goPure_eq, goBind_ok] at h
          cases hout : parseFieldList fuel imports pkg rl with
          | error e => rw [hout] at h; simp at h
          | ok outs =>
            rw [hout] at h
            simp only [goMapError_ok, goBind_ok, goPure_eq] at h
            cases h
            exact ⟨rfl, rfl⟩

/-- C6 witness: `(a int, b ...string)` - the input list holds only `a`
and the variadic slot holds `b`. -/
theorem claim_C6_variadic_split_witness :
    parseFunc 4 [] "p" 0
        (some [Field.mk 1 ["a"] none none (.ident 2 "int"),
               Field.mk 3 ["b"] none none (.ellipsis 4 (.ident 5 "string"))]) none =
      .ok ([Parameter.mk (some "a") (.predeclared "int")],
           some (Parameter.mk (some "b") (.predeclared "string")), []) ∧
    parseFieldList 3 [] "p"
        [Field.mk 1 ["a"] none none (.ident 2 "int")] =
      .ok [Parameter.mk (some "a") (.predeclared "int")] ∧
    (parseFieldList 3 [] "p"
        [Field.mk 3 ["b"] none none (.ellipsis 4 (.ident 5 "string"))]).map
        (fun vp => vp.head?) =
      .ok (some (Parameter.mk (some "b") (.predeclared "string"))) ∧
    (some (Parameter.mk (some "b") (.predeclared "string"))).isSome = true := by
  have heval : parseFunc 4 [] "p" 0
      (some [Field.mk 1 ["a"] none none (.ident 2 "int"),
             Field.mk 3 ["b"] none none (.ellipsis 4 (.ident 5 "string"))]) none =
      .ok ([Parameter.mk (some "a") (.predeclared "int")],
           some (Parameter.mk (some "b") (.predeclared "string")), []) := by
    simp [parseFunc, parseFieldList, parseFieldLoop, parseType, isVariadic,
      isExportedName, Field.type, Field.names, Field.pos]
  have h := (claim_C6_variadic_split 3 [] "p" 0
      [Field.mk 1 ["a"] none none (.ident 2 "int"),
       Field.mk 3 ["b"] none none (.ellipsis 4 (.ident 5 "string"))] none
      [Parameter.mk (some "a") (.predeclared "int")]
      (some (Parameter.mk (some "b") (.predeclared "string"))) []).2 heval
  have h2 := h.1 (by simp [isVariadic, Field.type])
  exact ⟨heval, h2.1, h2.2.1, h2.2.2⟩

/-! ## Claim C7 -/

theorem foldl_nf_le (fs : List Field) :
    ∀ acc : Nat, acc ≤ fs.foldl (fun n f => n + max 1 (Field.names f).length) acc := by
  induction fs with
  | nil => intro acc; exact le_rfl
  | cons f fs ih => intro acc; exact le_trans (Nat.le_add_right _ _) (ih _)

theorem parseFieldLoop_eq_fieldGroups (fuel : Nat) (imports : AList ImportedPackage)
    (pkg : String) :
    ∀ fields, parseFieldLoop fuel imports pkg fields =
      (fieldGroups fuel imports pkg fields).map List.flatten := by
  intro fields
  induction fields with
  | nil => simp [parseFieldLoop, fieldGroups]
  | cons f fs ih =>
    simp only [parseFieldLoop, fieldGroups]
    cases hT : parseType fuel imports pkg (Field.type f) with
    | error e => simp
    | ok t =>
      simp only [goBind_ok]
      rw [ih]
      cases hG : fieldGroups fuel imports pkg fs with
      | error e => simp
      | ok gs =>
        cases hn : Field.names f <;> simp

/-- C7: the field-list translation is exactly the in-order flattening of
the per-group expansion: one Parameter per name within each group, all
sharing the group type, names and groups in order, and exactly one
anonymous Parameter for a nameless group; in particular the group
`a, b T` yields exactly the two Parameters (a : T) then (b : T). -/
theorem claim_C7_field_group_expansion :
    (∀ (fuel : Nat) (imports : AList ImportedPackage) (pkg : String) (fields : List Field),
      parseFieldList (fuel + 1) imports pkg fields =
        (fieldGroups fuel imports pkg fields).map List.flatten) ∧
    parseFieldList 2 [] "p" [Field.mk 0 ["a", "b"] none none (.ident 1 "T")] =
      .ok [Parameter.mk (some "a") (.named "p" "T"), Parameter.mk (some "b") (.named "p" "T")] := by
  constructor
  · intro fuel imports pkg fields
    simp only [parseFieldList]
    cases fields with
    | nil => simp [fieldGroups, Except.map]
    | cons f fs =>
      have hpos : 0 < (f :: fs).foldl (fun n g => n + max 1 (Field.names g).length) 0 := by
        rw [List.foldl_cons]
        refine lt_of_lt_of_le ?_ (foldl_nf_le fs _)
        have h1 : 1 ≤ max 1 (Field.names f).length := le_max_left _ _
        omega
      rw [if_neg hpos.ne']
      exact parseFieldLoop_eq_fieldGroups fuel imports pkg (f :: fs)
  · simp [parseFieldList, parseFieldLoop, parseType, isExportedName, Field.type,
      Field.names, alFind?]

/-! ## Claim C8

The Go allocator loop is unbounded; its termination rests on the probe
names being pairwise distinct, which needs injectivity of `Nat.repr`
(`strconv.Itoa`).  We characterise `Nat.toDigitsCore` through
`Nat.digits` and derive injectivity. -/

theorem toDigitsCore_eq_digitsRev (fuel : Nat) :
    ∀ (n : Nat) (ds : List Char), n < fuel →
      Nat.toDigitsCore 10 fuel n ds = digitsRev n ++ ds := by
  induction fuel with
  | zero => intro n ds h; omega
  | succ fuel ih =>
    intro n ds h
    simp only [Nat.toDigitsCore]
    by_cases h0 : n / 10 = 0
    · rw [if_pos h0]
      have hn10 : n < 10 := (Nat.div_eq_zero_iff (by norm_num)).mp h0
      by_cases hn : n = 0
      · subst hn
        simp [digitsRev]
        decide
      · have hd : Nat.digits 10 n = [n] := by
          rw [Nat.digits_def' (by norm_num) (Nat.pos_of_ne_zero hn), h0,
            Nat.mod_eq_of_lt hn10]
          simp
        simp [digitsRev, hn, hd, Nat.mod_eq_of_lt hn10]
    · rw [if_neg h0]
      have hn : n ≠ 0 := by
        intro hn; subst hn; simp at h0
      have hlt : n / 10 < fuel := by
        have h1 : n / 10 < n := Nat.div_lt_self (Nat.pos_of_ne_zero hn) (by norm_num)
        omega
      rw [ih (n / 10) _ hlt]
      have hd : Nat.digits 10 n = n % 10 :: Nat.digits 10 (n / 10) := by
        exact Nat.digits_def' (by norm_num) (Nat.pos_of_ne_zero hn)
      simp [digitsRev, hn, hd, h0]

theorem repr_data_eq_digitsRev (n : Nat) : (Nat.repr n).data = digitsRev n := by
  show (Nat.toDigits 10 n).asString.data = digitsRev n
  rw [Nat.toDigits, toDigitsCore_eq_digitsRev (n + 1) n [] (Nat.lt_succ_self n)]
  simp [List.asString]

theorem digitChar_inj_lt (a b : Nat) (ha : a < 10) (hb : b < 10)
    (h : Nat.digitChar a = Nat.digitChar b) : a = b := by
  interval_cases a <;> interval_cases b <;> revert h <;> decide

theorem map_digitChar_inj :
    ∀ (l1 l2 : List Nat), (∀ x ∈ l1, x < 10) → (∀ x ∈ l2, x < 10) →
      l1.map Nat.digitChar = l2.map Nat.digitChar → l1 = l2 := by
  intro l1
  induction l1 with
  | nil =>
    intro l2 _ _ h
    cases l2 with
    | nil => rfl
    | cons b bs => simp at h
  | cons a as ih =>
    intro l2 h1 h2 h
    cases l2 with
    | nil => simp at h
    | cons b bs =>
      simp only [List.map_cons, List.cons.injEq] at h
      have ha : a = b := digitChar_inj_lt a b (h1 a (by simp)) (h2 b (by simp)) h.1
      have has : as = bs :=
        ih bs (fun x hx => h1 x (by simp [hx])) (fun x hx => h2 x (by simp [hx])) h.2
      rw [ha, has]

theorem digitsRev_inj (m n : Nat) (h : digitsRev m = digitsRev n) : m = n := by
  have key : ∀ k : Nat, k ≠ 0 → digitsRev k = ['0'] → False := by
    intro k hk hdk
    unfold digitsRev at hdk
    rw [if_neg hk] at hdk
    have hmap : (Nat.digits 10 k).map Nat.digitChar = ['0'] := by
      have := congrArg List.reverse hdk
      simpa using this
    have hlen : (Nat.digits 10 k).length = 1 := by
      have := congrArg List.length hmap
      simpa using this
    obtain ⟨d, hd⟩ : ∃ d, Nat.digits 10 k = [d] := by
      cases hdig : Nat.digits 10 k with
      | nil => rw [hdig] at hlen; simp at hlen
      | cons d ds =>
        rw [hdig] at hlen
        simp at hlen
        exact ⟨d, by rw [hlen]⟩
    rw [hd] at hmap
    simp only [List.map_cons, List.map_nil, List.cons.injEq] at hmap
    have hdlt : d < 10 := Nat.digits_lt_base (by norm_num) (by rw [hd]; simp)
    have : d = 0 := digitChar_inj_lt d 0 hdlt (by norm_num) (by simpa using hmap.1)
    subst this
    have := Nat.ofDigits_digits 10 k
    rw [hd] at this
    simp [Nat.ofDigits] at this
    exact hk this.symm
  by_cases hm : m = 0 <;> by_cases hn : n = 0
  · rw [hm, hn]
  · subst hm
    exact absurd (key n hn (by simpa [digitsRev] using h.symm)) (fun f => f.elim)
  · subst hn
    exact absurd (key m hm (by simpa [digitsRev] using h)) (fun f => f.elim)
  · unfold digitsRev at h
    rw [if_neg hm, if_neg hn] at h
    have hmap : (Nat.digits 10 m).map Nat.digitChar = (Nat.digits 10 n).map Nat.digitChar :=
      List.reverse_injective h
    have hdig : Nat.digits 10 m = Nat.digits 10 n :=
      map_digitChar_inj _ _ (fun x hx => Nat.digits_lt_base (by norm_num) hx)
        (fun x hx => Nat.digits_lt_base (by norm_num) hx) hmap
    have := congrArg (Nat.ofDigits 10) hdig
    rwa [Nat.ofDigits_digits, Nat.ofDigits_digits] at this

theorem natRepr_inj (m n : Nat) (h : Nat.repr m = Nat.repr n) : m = n :=
  digitsRev_inj m n (by
    rw [← repr_data_eq_digitsRev, ← repr_data_eq_digitsRev, h])

theorem probeName_inj (want : String) : Function.Injective (probeName want) := by
  intro j k h
  match j, k with
  | 0, 0 => rfl
  | 0, k + 1 =>
    exfalso
    have hlen := congrArg String.length h
    have h1 : ("_" : String).length = 1 := rfl
    simp only [probeName, String.length_append, h1] at hlen
    omega
  | j + 1, 0 =>
    exfalso
    have hlen := congrArg String.length h
    have h1 : ("_" : String).length = 1 := rfl
    simp only [probeName, String.length_append, h1] at hlen
    omega
  | j + 1, k + 1 =>
    simp only [probeName] at h
    have hdata := congrArg String.data h
    simp only [String.data_append] at hdata
    have hrepr : (Nat.repr (j + 2)).data = (Nat.repr (k + 2)).data :=
      List.append_cancel_left hdata
    have hstr : Nat.repr (j + 2) = Nat.repr (k + 2) := by
      cases hr1 : Nat.repr (j + 2) with
      | mk d1 =>
        cases hr2 : Nat.repr (k + 2) with
        | mk d2 =>
          rw [hr1, hr2] at hrepr
          simp only [] at hrepr
          rw [hrepr]
    have := natRepr_inj _ _ hstr
    omega

theorem exists_free_probe (taken : List String) (want : String) :
    ∃ i, i ≤ taken.length ∧ probeName want i ∉ taken := by
  by_contra hcon
  push_neg at hcon
  have hsub : ((List.range (taken.length + 1)).map (probeName want)) ⊆ taken := by
    intro x hx
    simp only [List.mem_map, List.mem_range] at hx
    obtain ⟨i, hi, rfl⟩ := hx
    exact hcon i (by omega)
  have hnd : ((List.range (taken.length + 1)).map (probeName want)).Nodup :=
    (List.nodup_range _).map (probeName_inj want)
  have := (List.subperm_of_subset hnd hsub).length_le
  simp at this

theorem allocFrom_spec (taken : List String) (want : String) :
    ∀ (fuel j : Nat), (∃ i, j ≤ i ∧ i < j + fuel ∧ probeName want i ∉ taken) →
      ∃ jm, j ≤ jm ∧ allocFrom taken want j fuel = probeName want jm ∧
        probeName want jm ∉ taken ∧ ∀ k, j ≤ k → k < jm → probeName want k ∈ taken := by
  intro fuel
  induction fuel with
  | zero =>
    intro j ⟨i, hj, hi, _⟩
    omega
  | succ fuel ih =>
    intro j ⟨i, hj, hi, hfree⟩
    by_cases hjt : probeName want j ∈ taken
    · have hij : i ≠ j := fun hij => (hij ▸ hfree) hjt
      obtain ⟨jm, hjm1, hjm2, hjm3, hjm4⟩ :=
        ih (j + 1) ⟨i, by omega, by omega, hfree⟩
      refine ⟨jm, by omega, ?_, hjm3, ?_⟩
      · simp only [allocFrom, if_pos hjt]
        exact hjm2
      · intro k hk1 hk2
        by_cases hkj : k = j
        · exact hkj ▸ hjt
        · exact hjm4 k (by omega) hk2
    · refine ⟨j, le_rfl, ?_, hjt, fun k hk1 hk2 => by omega⟩
      simp only [allocFrom, if_neg hjt]

/-- C8: `allocateIdentifier` always terminates with a result: it returns
the first free name in the probe order `want`, `want_2`, `want_3`, ...,
reserves it in the state, and is a deterministic function of its inputs;
on an allocator seeded with `Foo`, allocating `Foo` twice returns
`Foo_2` then `Foo_3`. -/
theorem claim_C8_allocate_first_free :
    (∀ (taken : List String) (want : String),
      ∃ j, allocateIdentifier taken want = (probeName want j, probeName want j :: taken) ∧
        probeName want j ∉ taken ∧ ∀ k, k < j → probeName want k ∈ taken) ∧
    allocateIdentifier (newIdentifierAllocator ["Foo"]) "Foo" = ("Foo_2", ["Foo_2", "Foo"]) ∧
    allocateIdentifier
        (allocateIdentifier (newIdentifierAllocator ["Foo"]) "Foo").2 "Foo" =
      ("Foo_3", ["Foo_3", "Foo_2", "Foo"]) := by
  refine ⟨?_, by decide, by decide⟩
  intro taken want
  obtain ⟨i, hi, hfree⟩ := exists_free_probe taken want
  obtain ⟨jm, _, heq, hfree2, hmin⟩ :=
    allocFrom_spec taken want (taken.length + 1) 0 ⟨i, Nat.zero_le i, by omega, hfree⟩
  refine ⟨jm, ?_, hfree2, fun k hk => hmin k (Nat.zero_le k) hk⟩
  simp [allocateIdentifier, heq]

/-! ## Claim C1 -/

/-- C1 counterexample: for `type B interface { N() }` and
`type A interface { B; M() }` (the embedding declared before the own
method), the resolved methods of `A` are `[N, M]` - the embedded
interface's methods appear at the position of the embedding entry - and
not `[M, N]` as the claim's own-methods-first concatenation predicts. -/
theorem claim_C1_counterexample :
    (parseInterface 10 emptyEnv c1St "A" "p" c1A).map
        (fun i => i.methods.map Method.name) = .ok ["N", "M"] ∧
    (parseInterface 10 emptyEnv c1St "A" "p" c1A).map
        (fun i => i.methods.map Method.name) ≠ .ok ["M", "N"] := by
  have h : (parseInterface 10 emptyEnv c1St "A" "p" c1A).map
      (fun i => i.methods.map Method.name) = .ok ["N", "M"] := by
    simp [parseInterface, parseInterfaceFields, entryContribution, parseFunc,
      parseFieldList, parseFieldLoop, parseType, isVariadic, c1A, c1B, c1St,
      lookupAux, lookupImported, alFind?, emptyEnv, Field.type, Field.names,
      Field.pos, Field.doc, Field.comment, Except.map, Option.orElse]
  refine ⟨h, ?_⟩
  rw [h]
  simp

theorem parseInterfaceFields_flatten (fuel : Nat) (env : Env) (st : FPState)
    (intfName pkg : String) :
    ∀ (fields : List Field) (ms : List Method),
      parseInterfaceFields fuel env st intfName pkg fields = .ok ms →
      ∃ contribs : List (List Method), ms = contribs.flatten ∧
        List.Forall₂ (fun f c => entryContribution fuel env st intfName pkg f = .ok c)
          fields contribs := by
  intro fields
  induction fields with
  | nil =>
    intro ms h
    simp only [parseInterfaceFields, goPure_eq] at h
    cases h
    exact ⟨[], by simp, List.Forall₂.nil⟩
  | cons field rest ih =>
    intro ms h
    simp only [parseInterfaceFields] at h
    cases hc : entryContribution fuel env st intfName pkg field with
    | error e => rw [hc] at h; simp at h
    | ok contrib =>
      rw [hc] at h
      simp only [goBind_ok] at h
      cases hr : parseInterfaceFields fuel env st intfName pkg rest with
      | error e => rw [hr] at h; simp at h
      | ok ms2 =>
        rw [hr] at h
        simp only [goBind_ok, goPure_eq] at h
        cases h
        obtain ⟨cs, hflat, hf2⟩ := ih ms2 hr
        exact ⟨contrib :: cs, by simp [hflat], List.Forall₂.cons hc hf2⟩

/-- C1 amended: the resolved interface's methods are the concatenation,
in declaration order of the method-list entries, of each entry's
contribution (`entryContribution`: a signature entry contributes its
single translated method, an embedded-interface entry contributes the
embedded interface's recursively resolved methods), with no
de-duplication - own methods are *not* hoisted in front of embedded
ones; each contribution sits at its entry's position. -/
theorem claim_C1_methods_entry_order_concat (fuel : Nat) (env : Env) (st : FPState)
    (name pkg : String) (it : NamedInterface) (intf : Interface)
    (h : parseInterface (fuel + 1) env st name pkg it = .ok intf) :
    ∃ contribs : List (List Method), intf.methods = contribs.flatten ∧
      List.Forall₂ (fun f c => entryContribution fuel env st name pkg f = .ok c)
        it.methods contribs := by
  simp only [parseInterface] at h
  cases hms : parseInterfaceFields fuel env st name pkg it.methods with
  | error e => rw [hms] at h; simp at h
  | ok ms =>
    rw [hms] at h
    simp only [goBind_ok, goPure_eq] at h
    cases h
    exact parseInterfaceFields_flatten fuel env st name pkg it.methods ms hms

/-- C1 amended witness: the concrete resolution of `A` above, where the
contributions are `[N]` (from the embedding of `B`) and `[M]` (from the
own signature), flattened in that entry order. -/
theorem claim_C1_methods_entry_order_concat_witness :
    ∃ contribs : List (List Method),
      ({ name := "A", doc := [], comment := ""
         methods := [{ name := "N", doc := [], comment := "", inputs := []
                       variadic := none, outputs := [] },
                     { name := "M", doc := [], comment := "", inputs := []
                       variadic := none, outputs := [] }] } : Interface).methods =
        contribs.flatten ∧
      List.Forall₂ (fun f c => entryContribution 9 emptyEnv c1St "A" "p" f = .ok c)
        c1A.methods contribs := by
  refine claim_C1_methods_entry_order_concat 9 emptyEnv c1St "A" "p" c1A _ ?_
  simp [parseInterface, parseInterfaceFields, entryContribution, parseFunc,
    parseFieldList, parseFieldLoop, parseType, isVariadic, c1A, c1B, c1St,
    lookupAux, lookupImported, alFind?, emptyEnv, Field.type, Field.names,
    Field.pos, Field.doc, Field.comment, Option.orElse]

/-! ## Claim C4 -/

/-- C4 counterexample: on a file with two structs and one method
declaration, two runs over fresh, identical parser state that differ
only in the order Go happens to iterate the struct map (which Go
randomises) produce Packages whose struct lists are in different
orders, hence not structurally identical. -/
theorem claim_C4_counterexample :
    (parseFile 2 ordId emptyEnv emptySt "p" c4File).map
        (fun p => p.structNames.map (fun s => s.name)) = .ok ["S", "T"] ∧
    (parseFile 2 ordRev emptyEnv emptySt "p" c4File).map
        (fun p => p.structNames.map (fun s => s.name)) = .ok ["T", "S"] ∧
    (Except.ok ["S", "T"] : Except GoErr (List String)) ≠ .ok ["T", "S"] := by
  refine ⟨rfl, rfl, by simp⟩

theorem iterStructLoop_perm (o1 o2 : Nat → List NamedStruct → List NamedStruct)
    (h1 : ∀ r l, List.Perm (o1 r l) l) (h2 : ∀ r l, List.Perm (o2 r l) l) :
    ∀ (ds : List Decl) (r : Nat) (sm : AList NamedStruct),
      (∃ e, iterStructLoop o1 r sm ds = .error e ∧ iterStructLoop o2 r sm ds = .error e) ∨
      (∃ l1 l2, iterStructLoop o1 r sm ds = .ok l1 ∧ iterStructLoop o2 r sm ds = .ok l2 ∧
        List.Perm l1 l2) := by
  intro ds
  induction ds with
  | nil => intro r sm; right; exact ⟨[], [], rfl, rfl, List.Perm.refl []⟩
  | cons d rest ih =>
    intro r sm
    cases d with
    | funcDecl fd =>
      cases ha : attachRecv sm fd with
      | error e =>
        left
        exact ⟨e, by simp [iterStructLoop, ha], by simp [iterStructLoop, ha]⟩
      | ok sm2 =>
        rcases ih (r + 1) sm2 with ⟨e, he1, he2⟩ | ⟨l1, l2, hl1, hl2, hperm⟩
        · left
          exact ⟨e, by simp [iterStructLoop, ha, he1], by simp [iterStructLoop, ha, he2]⟩
        · right
          refine ⟨o1 r (alValues sm2) ++ l1, o2 r (alValues sm2) ++ l2,
            by simp [iterStructLoop, ha, hl1], by simp [iterStructLoop, ha, hl2], ?_⟩
          exact List.Perm.append ((h1 r _).trans (h2 r _).symm) hperm
    | genDecl a b c =>
      have : iterStructLoop o1 r sm (Decl.genDecl a b c :: rest) =
          iterStructLoop o1 r sm rest := rfl
      have h2eq : iterStructLoop o2 r sm (Decl.genDecl a b c :: rest) =
          iterStructLoop o2 r sm rest := rfl
      rw [this, h2eq]
      exact ih r sm
    | otherDecl =>
      have : iterStructLoop o1 r sm (Decl.otherDecl :: rest) =
          iterStructLoop o1 r sm rest := rfl
      have h2eq : iterStructLoop o2 r sm (Decl.otherDecl :: rest) =
          iterStructLoop o2 r sm rest := rfl
      rw [this, h2eq]
      exact ih r sm

/-- C4 amended: two resolutions of the same entry file over the same
fresh parser state, differing only in the (randomised) struct-map
iteration orders, produce Packages with identical name, path,
interfaces and dot imports, and struct lists that are permutations of
one another - but not necessarily in the same order, so the Packages
are only structurally identical up to struct order. -/
theorem claim_C4_identical_up_to_struct_order (fuel : Nat)
    (o1 o2 : Nat → List NamedStruct → List NamedStruct)
    (h1 : ∀ r l, List.Perm (o1 r l) l) (h2 : ∀ r l, List.Perm (o2 r l) l)
    (env : Env) (st : FPState) (importPath : String) (file : GoFile)
    (p1 p2 : Package)
    (hp1 : parseFile fuel o1 env st importPath file = .ok p1)
    (hp2 : parseFile fuel o2 env st importPath file = .ok p2) :
    p1.name = p2.name ∧ p1.pkgPath = p2.pkgPath ∧ p1.interfaces = p2.interfaces ∧
      p1.dotImports = p2.dotImports ∧ List.Perm p1.structNames p2.structNames := by
  simp only [parseFile] at hp1 hp2
  cases hI : parseFileInterfaces fuel env (parseFileMergedSt env st file) importPath
      (iterInterfaces file) with
  | error e => rw [hI] at hp1; simp at hp1
  | ok is =>
    rw [hI] at hp1 hp2
    simp only [goBind_ok] at hp1 hp2
    rcases iterStructLoop_perm o1 o2 h1 h2 file.decls 0 (structMapOfFile file) with
      ⟨e, he1, he2⟩ | ⟨l1, l2, hl1, hl2, hperm⟩
    · simp only [iterStruct] at hp1
      rw [he1] at hp1
      simp at hp1
    · simp only [iterStruct] at hp1 hp2
      rw [hl1] at hp1
      rw [hl2] at hp2
      simp only [goBind_ok, goPure_eq] at hp1 hp2
      cases hp1
      cases hp2
      exact ⟨rfl, rfl, rfl, rfl, hperm.map _⟩

/-- C4 amended witness: the two concrete runs of the counterexample
satisfy the amended claim - equal in everything except the order of the
struct list, which is a permutation. -/
theorem claim_C4_identical_up_to_struct_order_witness :
    ("p" : String) = "p" ∧ ("p" : String) = "p" ∧
      ([] : List Interface) = [] ∧ ([] : List String) = [] ∧
      List.Perm
        [parseStruct "S" "p" { name := "S", doc := none, comment := none
                               methods := [{ recv := some [⟨7, ["s"], none, none, .ident 8 "S"⟩]
                                             name := "M", doc := none }] },
         parseStruct "T" "p" { name := "T", doc := none, comment := none, methods := [] }]
        [parseStruct "T" "p" { name := "T", doc := none, comment := none, methods := [] },
         parseStruct "S" "p" { name := "S", doc := none, comment := none
                               methods := [{ recv := some [⟨7, ["s"], none, none, .ident 8 "S"⟩]
                                             name := "M", doc := none }] }] := by
  exact claim_C4_identical_up_to_struct_order 2 ordId ordRev
    (fun r l => List.Perm.refl l) (fun r l => l.reverse_perm)
    emptyEnv emptySt "p" c4File _ _ rfl rfl

/-! ## Claim C3 -/

theorem alFind?_recordImport_ne (acc : AList ImportedPackage) (k p k2 : String)
    (h : k2 ≠ k) : alFind? (recordImport acc k p) k2 = alFind? acc k2 := by
  unfold recordImport
  cases halt : alFind? acc k with
  | none => exact alFind?_alInsert_ne _ _ _ _ h
  | some ip => cases ip <;> exact alFind?_alInsert_ne _ _ _ _ h

theorem alFind?_recordImport_self (acc : AList ImportedPackage) (k p : String) :
    alFind? (recordImport acc k p) k =
      some (match alFind? acc k with
            | none => .pkg p
            | some (.pkg q) => .dup k [q, p]
            | some (.dup n ds) => .dup n (p :: ds)) := by
  unfold recordImport
  cases halt : alFind? acc k with
  | none => simp [alFind?_alInsert_self]
  | some ip => cases ip <;> simp [alFind?_alInsert_self]

theorem importsOfFileCore_find (pkgNames : String → Option String) (name : String)
    (hname : name ≠ ".") :
    ∀ (imports : List ImportSpec) (ni : AList ImportedPackage) (di : List String),
      alFind? (importsOfFileCore pkgNames imports ni di).1 name =
        addPaths name (alFind? ni name) (pathsTo pkgNames name imports) := by
  intro imports
  induction imports with
  | nil => intro ni di; simp [importsOfFileCore, pathsTo, addPaths]
  | cons is rest ih =>
    intro ni di
    cases hsn : importShortName pkgNames is with
    | none =>
      have hstep : importsOfFileCore pkgNames (is :: rest) ni di =
          importsOfFileCore pkgNames rest ni di := by
        simp [importsOfFileCore, hsn]
      have hpaths : pathsTo pkgNames name (is :: rest) = pathsTo pkgNames name rest := by
        simp [pathsTo, List.filterMap_cons, hsn]
      rw [hstep, hpaths]
      exact ih ni di
    | some pkgName =>
      by_cases hdot : pkgName = "."
      · subst hdot
        have hstep : importsOfFileCore pkgNames (is :: rest) ni di =
            importsOfFileCore pkgNames rest ni (di ++ [is.path]) := by
          simp [importsOfFileCore, hsn]
        have hc : ¬("." = name ∧ name ≠ ".") := fun h => h.2 h.1.symm
        have hpaths : pathsTo pkgNames name (is :: rest) = pathsTo pkgNames name rest := by
          simp only [pathsTo, List.filterMap_cons, hsn, if_neg hc]
        rw [hstep, hpaths]
        exact ih ni (di ++ [is.path])
      · by_cases heq : pkgName = name
        · subst heq
          have hstep : importsOfFileCore pkgNames (is :: rest) ni di =
              importsOfFileCore pkgNames rest (recordImport ni pkgName is.path) di := by
            simp [importsOfFileCore, hsn, hdot]
          have hpaths : pathsTo pkgNames pkgName (is :: rest) =
              is.path :: pathsTo pkgNames pkgName rest := by
            simp [pathsTo, List.filterMap_cons, hsn, hname]
          rw [hstep, hpaths, ih (recordImport ni pkgName is.path) di,
            alFind?_recordImport_self]
          simp only [addPaths, List.foldl_cons]
          cases alFind? ni pkgName with
          | none => rfl
          | some ip => cases ip <;> rfl
        · have hstep : importsOfFileCore pkgNames (is :: rest) ni di =
              importsOfFileCore pkgNames rest (recordImport ni pkgName is.path) di := by
            simp [importsOfFileCore, hsn, hdot]
          have hc : ¬(pkgName = name ∧ name ≠ ".") := fun h => heq h.1
          have hpaths : pathsTo pkgNames name (is :: rest) = pathsTo pkgNames name rest := by
            simp only [pathsTo, List.filterMap_cons, hsn, if_neg hc]
          rw [hstep, hpaths, ih (recordImport ni pkgName is.path) di,
            alFind?_recordImport_ne _ _ _ _ (fun hcc => heq hcc.symm)]

theorem addPaths_dup (name : String) :
    ∀ (ps : List String) (n : String) (ds : List String),
      ∃ ds2, addPaths name (some (.dup n ds)) ps = some (.dup n ds2) ∧
        (∀ x ∈ ds, x ∈ ds2) ∧ (∀ p ∈ ps, p ∈ ds2) := by
  intro ps
  induction ps with
  | nil => intro n ds; exact ⟨ds, rfl, fun x h => h, by simp⟩
  | cons p ps ih =>
    intro n ds
    obtain ⟨ds2, hp1, hp2, hp3⟩ := ih n (p :: ds)
    refine ⟨ds2, ?_, fun x hx => hp2 x (by simp [hx]), ?_⟩
    · simpa [addPaths, List.foldl_cons] using hp1
    · intro q hq
      rcases List.mem_cons.mp hq with hq | hq
      · exact hq ▸ hp2 p (by simp)
      · exact hp3 q hq

theorem addPaths_two (name : String) (ps : List String) (h : 2 ≤ ps.length) :
    ∃ ds, addPaths name none ps = some (.dup name ds) ∧ ∀ p ∈ ps, p ∈ ds := by
  cases ps with
  | nil => simp at h
  | cons p1 tail =>
    cases tail with
    | nil => simp at h
    | cons p2 rest =>
      obtain ⟨ds2, hp1, hp2, hp3⟩ := addPaths_dup name rest name [p1, p2]
      refine ⟨ds2, ?_, ?_⟩
      · simpa [addPaths, List.foldl_cons] using hp1
      · intro q hq
        rcases List.mem_cons.mp hq with hq | hq
        · exact hq ▸ hp2 p1 (by simp)
        · rcases List.mem_cons.mp hq with hq | hq
          · exact hq ▸ hp2 p2 (by simp)
          · exact hp3 q hq

theorem two_mem_length {α} (l : List α) (a b : α) (ha : a ∈ l) (hb : b ∈ l)
    (hab : a ≠ b) : 2 ≤ l.length := by
  cases l with
  | nil => cases ha
  | cons x t =>
    cases t with
    | nil =>
      simp only [List.mem_singleton] at ha hb
      exact absurd (ha.trans hb.symm) hab
    | cons y t2 => simp only [List.length_cons]; omega

theorem dup_recorded (pkgNames : String → Option String) (file : GoFile)
    (name p1 p2 : String) (hname : name ≠ ".") (hne : p1 ≠ p2)
    (h1 : p1 ∈ pathsTo pkgNames name file.imports)
    (h2 : p2 ∈ pathsTo pkgNames name file.imports) :
    ∃ ds, alFind? (importsOfFile pkgNames file).1 name = some (.dup name ds) ∧
      p1 ∈ ds ∧ p2 ∈ ds := by
  have hfind := importsOfFileCore_find pkgNames name hname file.imports [] []
  have hlen := two_mem_length _ _ _ h1 h2 hne
  obtain ⟨ds, hds, hmem⟩ := addPaths_two name (pathsTo pkgNames name file.imports) hlen
  refine ⟨ds, ?_, hmem p1 h1, hmem p2 h2⟩
  show alFind? (importsOfFileCore pkgNames file.imports [] []).1 name = _
  rw [hfind]
  simpa [alFind?] using hds

theorem fieldListAvoids_cons (name : String) (f : Field) (fs : List Field) :
    fieldListAvoids name (f :: fs) =
      (exprAvoids name (Field.type f) && fieldListAvoids name fs) := by
  cases f
  rfl

theorem fieldListAvoids_take (name : String) :
    ∀ (l : List Field) (k : Nat), fieldListAvoids name l = true →
      fieldListAvoids name (l.take k) = true := by
  intro l
  induction l with
  | nil => intro k _; cases k <;> rfl
  | cons f fs ih =>
    intro k h
    cases k with
    | zero => rfl
    | succ k =>
      rw [List.take_succ_cons, fieldListAvoids_cons]
      rw [fieldListAvoids_cons, Bool.and_eq_true] at h
      rw [Bool.and_eq_true]
      exact ⟨h.1, ih k h.2⟩

theorem fieldListAvoids_drop (name : String) :
    ∀ (l : List Field) (k : Nat), fieldListAvoids name l = true →
      fieldListAvoids name (l.drop k) = true := by
  intro l
  induction l with
  | nil => intro k _; cases k <;> rfl
  | cons f fs ih =>
    intro k h
    cases k with
    | zero => exact h
    | succ k =>
      rw [List.drop_succ_cons]
      rw [fieldListAvoids_cons, Bool.and_eq_true] at h
      exact ih k h.2

theorem exprAvoids_funcType (name : String) (fp : Nat)
    (params results : Option (List Field)) :
    exprAvoids name (.funcType fp params results) =
      (fieldListAvoids name (params.getD []) &&
        fieldListAvoids name (results.getD [])) := by
  cases params <;> cases results <;> rfl

/-- The frame property behind the deferred-ambiguity design: adding an
import-table binding for a short name that a type expression never
dereferences (and that is not the current package context) does not
change the result of the type translator. -/
theorem frame_all (name : String) (v : ImportedPackage) :
    ∀ fuel : Nat,
      (∀ (imports : AList ImportedPackage) (pkg : String) (e : Expr),
        exprAvoids name e = true → pkg ≠ name →
        parseType fuel (alInsert imports name v) pkg e = parseType fuel imports pkg e) ∧
      (∀ (imports : AList ImportedPackage) (pkg : String) (es : List Expr),
        exprListAvoids name es = true → pkg ≠ name →
        parseTypeList fuel (alInsert imports name v) pkg es =
          parseTypeList fuel imports pkg es) ∧
      (∀ (imports : AList ImportedPackage) (pkg : String) (fpos : Nat)
        (params results : Option (List Field)),
        fieldListAvoids name (params.getD []) = true →
        fieldListAvoids name (results.getD []) = true → pkg ≠ name →
        parseFunc fuel (alInsert imports name v) pkg fpos params results =
          parseFunc fuel imports pkg fpos params results) ∧
      (∀ (imports : AList ImportedPackage) (pkg : String) (fields : List Field),
        fieldListAvoids name fields = true → pkg ≠ name →
        parseFieldList fuel (alInsert imports name v) pkg fields =
          parseFieldList fuel imports pkg fields) ∧
      (∀ (imports : AList ImportedPackage) (pkg : String) (fields : List Field),
        fieldListAvoids name fields = true → pkg ≠ name →
        parseFieldLoop fuel (alInsert imports name v) pkg fields =
          parseFieldLoop fuel imports pkg fields) := by
  intro fuel
  induction fuel using Nat.strong_induction_on with
  | _ fuel ih =>
    have PT : ∀ (imports : AList ImportedPackage) (pkg : String) (e : Expr),
        exprAvoids name e = true → pkg ≠ name →
        parseType fuel (alInsert imports name v) pkg e = parseType fuel imports pkg e := by
      intro imports pkg e hav hpkg
      cases fuel with
      | zero => simp only [parseType]
      | succ f =>
        obtain ⟨ihPT, ihPTL, ihPF, ihPFL, ihPFLoop⟩ := ih f (Nat.lt_succ_self f)
        cases e with
        | ident p nm =>
          simp only [parseType]
          rw [alFind?_alInsert_ne imports name pkg v hpkg]
        | basicLit p s => simp only [parseType]
        | selectorExpr sp x sel =>
          cases x with
          | ident xp hnm =>
            simp only [exprAvoids] at hav
            have hx : hnm ≠ name := of_decide_eq_true hav
            simp only [parseType]
            rw [alFind?_alInsert_ne imports name hnm v hx]
          | _ => simp only [parseType]
        | starExpr p x =>
          simp only [exprAvoids] at hav
          simp only [parseType]
          rw [ihPT imports pkg x hav hpkg]
        | arrayType p len elt =>
          simp only [exprAvoids] at hav
          unfold parseType
          dsimp only
          rw [ihPT imports pkg elt hav hpkg]
        | chanType p dir value =>
          simp only [exprAvoids] at hav
          unfold parseType
          dsimp only
          rw [ihPT imports pkg value hav hpkg]
        | ellipsis p elt =>
          simp only [exprAvoids] at hav
          simp only [parseType]
          exact ihPT imports pkg elt hav hpkg
        | funcType fp params results =>
          rw [exprAvoids_funcType, Bool.and_eq_true] at hav
          simp only [parseType]
          rw [ihPF imports pkg fp params results hav.1 hav.2 hpkg]
        | interfaceType p methods => simp only [parseType]
        | mapType p key value =>
          simp only [exprAvoids, Bool.and_eq_true] at hav
          simp only [parseType]
          rw [ihPT imports pkg key hav.1 hpkg, ihPT imports pkg value hav.2 hpkg]
        | structType p fields => simp only [parseType]
        | indexExpr p x index =>
          simp only [exprAvoids, Bool.and_eq_true] at hav
          simp only [parseType]
          rw [ihPT imports pkg x hav.1 hpkg, ihPT imports pkg index hav.2 hpkg]
        | indexListExpr p x indices =>
          simp only [exprAvoids, Bool.and_eq_true] at hav
          simp only [parseType]
          rw [ihPT imports pkg x hav.1 hpkg, ihPTL imports pkg indices hav.2 hpkg]
        | parenExpr p x =>
          simp only [exprAvoids] at hav
          simp only [parseType]
          exact ihPT imports pkg x hav hpkg
        | otherExpr p s => simp only [parseType]
    have PTL : ∀ (imports : AList ImportedPackage) (pkg : String) (es : List Expr),
        exprListAvoids name es = true → pkg ≠ name →
        parseTypeList fuel (alInsert imports name v) pkg es =
          parseTypeList fuel imports pkg es := by
      intro imports pkg es hav hpkg
      induction es with
      | nil => simp only [parseTypeList]
      | cons e es ihe =>
        simp only [exprListAvoids, Bool.and_eq_true] at hav
        simp only [parseTypeList]
        rw [PT imports pkg e hav.1 hpkg, ihe hav.2]
    have PFLoop : ∀ (imports : AList ImportedPackage) (pkg : String) (fields : List Field),
        fieldListAvoids name fields = true → pkg ≠ name →
        parseFieldLoop fuel (alInsert imports name v) pkg fields =
          parseFieldLoop fuel imports pkg fields := by
      intro imports pkg fields hav hpkg
      induction fields with
      | nil => simp only [parseFieldLoop]
      | cons f fs ihf =>
        rw [fieldListAvoids_cons, Bool.and_eq_true] at hav
        simp only [parseFieldLoop]
        rw [PT imports pkg (Field.type f) hav.1 hpkg, ihf hav.2]
    have PFL : ∀ (imports : AList ImportedPackage) (pkg : String) (fields : List Field),
        fieldListAvoids name fields = true → pkg ≠ name →
        parseFieldList fuel (alInsert imports name v) pkg fields =
          parseFieldList fuel imports pkg fields := by
      intro imports pkg fields hav hpkg
      cases fuel with
      | zero => simp only [parseFieldList]
      | succ f =>
        obtain ⟨_, _, _, _, ihPFLoop⟩ := ih f (Nat.lt_succ_self f)
        simp only [parseFieldList]
        rw [ihPFLoop imports pkg fields hav hpkg]
    have PF : ∀ (imports : AList ImportedPackage) (pkg : String) (fpos : Nat)
        (params results : Option (List Field)),
        fieldListAvoids name (params.getD []) = true →
        fieldListAvoids name (results.getD []) = true → pkg ≠ name →
        parseFunc fuel (alInsert imports name v) pkg fpos params results =
          parseFunc fuel imports pkg fpos params results := by
      intro imports pkg fpos params results hp hr hpkg
      cases fuel with
      | zero => simp only [parseFunc]
      | succ f =>
        obtain ⟨_, _, _, ihPFL, _⟩ := ih f (Nat.lt_succ_self f)
        cases params with
        | none =>
          cases results with
          | none => simp only [parseFunc]
          | some rl =>
            simp only [parseFunc]
            rw [ihPFL imports pkg rl (by simpa using hr) hpkg]
        | some paramList =>
          have hp' : fieldListAvoids name paramList = true := by simpa using hp
          cases results with
          | none =>
            simp only [parseFunc]
            rw [ihPFL imports pkg (paramList.drop (paramList.length - 1))
                (fieldListAvoids_drop name paramList _ hp') hpkg,
              ihPFL imports pkg (paramList.take (paramList.length - 1))
                (fieldListAvoids_take name paramList _ hp') hpkg,
              ihPFL imports pkg paramList hp' hpkg]
          | some rl =>
            simp only [parseFunc]
            rw [ihPFL imports pkg (paramList.drop (paramList.length - 1))
                (fieldListAvoids_drop name paramList _ hp') hpkg,
              ihPFL imports pkg (paramList.take (paramList.length - 1))
                (fieldListAvoids_take name paramList _ hp') hpkg,
              ihPFL imports pkg paramList hp' hpkg,
              ihPFL imports pkg rl (by simpa using hr) hpkg]
    exact ⟨PT, PTL, PF, PFL, PFLoop⟩

/-- Per-entry lifting of the frame property: a method-signature entry
whose types avoid the short name contributes the same methods whether or
not that name is bound (here: bound to an extra `v`) in the import
table. -/
theorem entryContribution_frame (name : String) (v : ImportedPackage)
    (fuel : Nat) (env : Env) (st : FPState) (intfName pkg : String) (field : Field)
    (hclean : fieldIsCleanSig name field = true) (hpkg : pkg ≠ name) :
    entryContribution fuel env
        { st with imports := alInsert st.imports name v } intfName pkg field =
      entryContribution fuel env st intfName pkg field := by
  obtain ⟨fpos, names, fdoc, fcomment, ty⟩ := field
  cases ty
  case funcType fp params results =>
    rw [show fieldIsCleanSig name
          (.mk fpos names fdoc fcomment (.funcType fp params results)) =
        (fieldListAvoids name (params.getD []) &&
          fieldListAvoids name (results.getD [])) from rfl,
      Bool.and_eq_true] at hclean
    cases names with
    | nil => simp only [entryContribution]
    | cons n ns =>
      cases ns with
      | nil =>
        simp only [entryContribution]
        rw [(frame_all name v fuel).2.2.1 st.imports pkg fp params results
          hclean.1 hclean.2 hpkg]
      | cons m ms => simp only [entryContribution]
  all_goals simp [fieldIsCleanSig, Field.type] at hclean

/-- The method-list loop preserves the frame property entrywise. -/
theorem parseInterfaceFields_frame (name : String) (v : ImportedPackage)
    (fuel : Nat) (env : Env) (st : FPState) (intfName pkg : String) :
    ∀ fields : List Field, fields.all (fieldIsCleanSig name) = true → pkg ≠ name →
    parseInterfaceFields fuel env
        { st with imports := alInsert st.imports name v } intfName pkg fields =
      parseInterfaceFields fuel env st intfName pkg fields := by
  intro fields
  induction fields with
  | nil => intro _ _; simp only [parseInterfaceFields]
  | cons f fs ih =>
    intro hall hpkg
    rw [List.all_cons, Bool.and_eq_true] at hall
    simp only [parseInterfaceFields]
    rw [entryContribution_frame name v fuel env st intfName pkg f hall.1 hpkg,
      ih hall.2 hpkg]

/-- Part (b) of the deferred-ambiguity design: resolving an interface
all of whose method-list entries are plain signatures that never mention
the short name `name` is unaffected by an extra import-table binding at
`name`. -/
theorem parseInterface_frame (name : String) (v : ImportedPackage) (fuel : Nat)
    (env : Env) (st : FPState) (intfName pkg : String) (it : NamedInterface)
    (hclean : it.methods.all (fieldIsCleanSig name) = true) (hpkg : pkg ≠ name) :
    parseInterface fuel env
        { st with imports := alInsert st.imports name v } intfName pkg it =
      parseInterface fuel env st intfName pkg it := by
  cases fuel with
  | zero => simp only [parseInterface]
  | succ f =>
    simp only [parseInterface]
    rw [parseInterfaceFields_frame name v f env st intfName pkg it.methods hclean hpkg]

/-- Part (c): an interface whose first method-list entry dereferences a
short name recorded as a duplicate (and not shadowed by the auxiliary
cache) makes `parseInterface` abort the whole run via `log.Fatal`,
naming the recorded paths. -/
theorem parseInterface_dup_fatal (fuel : Nat) (env : Env) (st : FPState)
    (intfName pkg : String) (it : NamedInterface) (fpos : Nat)
    (names : List String) (fdoc : Option (List String)) (fcomment : Option String)
    (spos xpos : Nat) (nm sel : String) (rest : List Field)
    (n : String) (ds : List String)
    (hms : it.methods =
      .mk fpos names fdoc fcomment (.selectorExpr spos (.ident xpos nm) sel) :: rest)
    (hfind : alFind? st.imports nm = some (.dup n ds))
    (haux : lookupAux st nm sel = none) :
    parseInterface (fuel + 1) env st intfName pkg it =
      .error (.fatal (dupErrorMsg n ds)) := by
  simp only [parseInterface, hms]
  simp only [parseInterfaceFields]
  have hec : entryContribution fuel env st intfName pkg
      (.mk fpos names fdoc fcomment (.selectorExpr spos (.ident xpos nm) sel)) =
      .error (.fatal (dupErrorMsg n ds)) := by
    simp only [entryContribution]
    rw [hfind]
    dsimp only
    rw [haux]
  rw [hec]
  simp only [goBind_error]

/-- C3: for a file whose imports map two distinct paths to one short
name, building the import table succeeds and records a duplicate marker
holding both paths (part a); resolving an interface whose entries never
mention that short name is unaffected by the recorded binding (part b);
resolving an interface that does dereference it aborts the run with the
`log.Fatal` duplicate-import message naming the recorded paths - an
abort, not one of the structured errors the run returns (part c). -/
theorem claim_C3_deferred_duplicate_import :
    (∀ (pkgNames : String → Option String) (file : GoFile) (name p1 p2 : String),
      name ≠ "." → p1 ≠ p2 →
      p1 ∈ pathsTo pkgNames name file.imports →
      p2 ∈ pathsTo pkgNames name file.imports →
      ∃ ds, alFind? (importsOfFile pkgNames file).1 name = some (.dup name ds) ∧
        p1 ∈ ds ∧ p2 ∈ ds) ∧
    (∀ (name : String) (v : ImportedPackage) (fuel : Nat) (env : Env)
      (st : FPState) (intfName pkg : String) (it : NamedInterface),
      it.methods.all (fieldIsCleanSig name) = true → pkg ≠ name →
      parseInterface fuel env
          { st with imports := alInsert st.imports name v } intfName pkg it =
        parseInterface fuel env st intfName pkg it) ∧
    (∀ (fuel : Nat) (env : Env) (st : FPState) (intfName pkg : String)
      (it : NamedInterface) (fpos : Nat) (names : List String)
      (fdoc : Option (List String)) (fcomment : Option String) (spos xpos : Nat)
      (nm sel : String) (rest : List Field) (n : String) (ds : List String),
      it.methods =
        .mk fpos names fdoc fcomment
          (.selectorExpr spos (.ident xpos nm) sel) :: rest →
      alFind? st.imports nm = some (.dup n ds) →
      lookupAux st nm sel = none →
      parseInterface (fuel + 1) env st intfName pkg it =
        .error (.fatal (dupErrorMsg n ds)) ∧
      isReturnedError (parseInterface (fuel + 1) env st intfName pkg it) = false) := by
  refine ⟨?_, ?_, ?_⟩
  · intro pkgNames file name p1 p2 hdot hne h1 h2
    exact dup_recorded pkgNames file name p1 p2 hdot hne h1 h2
  · intro name v fuel env st intfName pkg it hclean hpkg
    exact parseInterface_frame name v fuel env st intfName pkg it hclean hpkg
  · intro fuel env st intfName pkg it fpos names fdoc fcomment spos xpos nm sel
      rest n ds hms hfind haux
    have h := parseInterface_dup_fatal fuel env st intfName pkg it fpos names fdoc
      fcomment spos xpos nm sel rest n ds hms hfind haux
    exact ⟨h, by rw [h]; rfl⟩

/-- Refutation of the final clause of the literal claim: on the
ambiguous fixture, dereferencing the duplicate short name ends in the
`log.Fatal` abort, which is not a structured returned error of the run
(`isReturnedError` is `false`). -/
theorem claim_C3_counterexample :
    parseInterface 2 emptyEnv c3St "I" "p" c3NIDeref =
      .error (.fatal (dupErrorMsg "x" ["a/x", "b/x"])) ∧
    isReturnedError (parseInterface 2 emptyEnv c3St "I" "p" c3NIDeref) = false := by
  have h := parseInterface_dup_fatal 1 emptyEnv c3St "I" "p" c3NIDeref 40 [] none none
    41 42 "x" "S" [] "x" ["a/x", "b/x"] rfl rfl rfl
  exact ⟨h, by rw [h]; rfl⟩

theorem claim_C3_deferred_duplicate_import_witness :
    (∃ ds, alFind? (importsOfFile c3PkgNames c3FileDup).1 "x" = some (.dup "x" ds) ∧
      "a/x" ∈ ds ∧ "b/x" ∈ ds) ∧
    (parseInterface 2 emptyEnv
        { emptySt with imports := alInsert emptySt.imports "x" (.dup "x" ["a/x", "b/x"]) }
        "J" "p" c3NIClean =
      parseInterface 2 emptyEnv emptySt "J" "p" c3NIClean) ∧
    (parseInterface 2 emptyEnv c3St "K" "p" c3NIDeref =
        .error (.fatal (dupErrorMsg "x" ["a/x", "b/x"])) ∧
      isReturnedError (parseInterface 2 emptyEnv c3St "K" "p" c3NIDeref) = false) :=
  ⟨claim_C3_deferred_duplicate_import.1 c3PkgNames c3FileDup "x" "a/x" "b/x"
      (by decide) (by decide) (by decide) (by decide),
   claim_C3_deferred_duplicate_import.2.1 "x" (.dup "x" ["a/x", "b/x"]) 2 emptyEnv
      emptySt "J" "p" c3NIClean (by decide) (by decide),
   claim_C3_deferred_duplicate_import.2.2 1 emptyEnv c3St "K" "p" c3NIDeref
      40 [] none none 41 42 "x" "S" [] "x" ["a/x", "b/x"] rfl rfl rfl⟩

end Implgen
